import Mathlib

/-!
# mysql-user-migrate: the migration engine

A shallow embedding of `internal/migrate/runner.go` (with the record types of
`internal/migrate/types.go`) and of the Go library routines it calls.

Modelling conventions.

* A Go `string` is the list of its runes (`GoString`); strings are taken to be
  valid UTF-8, so a rune is a `Char`. Byte-wise steps of the library code
  (comparing or skipping one byte) are taken rune-wise. On ASCII text the two
  readings are the same; on other text `path.Match` may differ where a star is
  retried inside a multi-byte rune. Every string evaluated below is ASCII, and
  the general theorems do not depend on how `path.Match` reads its name.
* The Unicode tables behind `strings.ToLower` and `strings.TrimSpace` are a
  parameter (`UnicodeTables`); `asciiTables` is their restriction to ASCII and
  is used where a concrete string is evaluated.
* The target database is a state `σ` with the two operations the engine uses:
  the existence query (read-only) and `ExecContext` (a state change that may
  fail). A connection carries, next to the state, the log of every statement
  handed to `ExecContext`.
* `path.Match` is the one of Go 1.16 and later, which checks the whole pattern
  for being well formed before it answers "no match".
* Loops run on structural recursion or on an explicit fuel counter that is
  large enough for them to finish (`normalizePattern_no_double_star`,
  `Match_total`); `path.Match` reports exhausted fuel as its own error value,
  distinct from `ErrBadPattern`.
-/

namespace Migrate

/-- A Go string: the sequence of its runes. -/
abbrev GoString := List Char

/-- The tables of Go's `unicode` package consulted by the string helpers:
`unicode.ToLower` and `unicode.IsSpace`. -/
structure UnicodeTables where
  toLower : Char → Char
  isSpace : Char → Bool

/-- The ASCII part of the Unicode tables: `A`..`Z` are lowered, and the white
space runes are tab, line feed, vertical tab, form feed, carriage return and
space. -/
def asciiTables : UnicodeTables where
  toLower := Char.toLower
  isSpace := fun c => c = Char.ofNat 9 ∨ c = Char.ofNat 10 ∨ c = Char.ofNat 11 ∨
    c = Char.ofNat 12 ∨ c = Char.ofNat 13 ∨ c = Char.ofNat 32

/-! ## Package `strings` -/

namespace strings

/-- `strings.ToLower`: every rune mapped to its lower case. -/
def ToLower (U : UnicodeTables) (s : GoString) : GoString :=
  s.map U.toLower

/-- `strings.TrimSpace`: leading and trailing white space removed. -/
def TrimSpace (U : UnicodeTables) (s : GoString) : GoString :=
  ((s.dropWhile U.isSpace).reverse.dropWhile U.isSpace).reverse

/-- `strings.Index`: the position of the first occurrence of `sub` in `s`;
`none` stands for Go's `-1`. -/
def Index : GoString → GoString → Option Nat
  | [], sub => if sub.isEmpty then some 0 else none
  | c :: cs, sub =>
    if sub.isPrefixOf (c :: cs) then some 0 else (Index cs sub).map (· + 1)

/-- `strings.Contains`: `Index(s, sub) >= 0`. -/
def Contains (s sub : GoString) : Bool :=
  (Index s sub).isSome

/-- `strings.SplitN(s, sep, 2)`: `s` cut around the first occurrence of `sep`,
or `[s]` when `sep` does not occur. -/
def SplitN2 (s sep : GoString) : List GoString :=
  match Index s sep with
  | none => [s]
  | some m => [s.take m, s.drop (m + sep.length)]

/-- The scan of `strings.ReplaceAll`: `skip` counts the runes of a matched
occurrence of `old` that are still to be passed over. Occurrences are taken
left to right and do not overlap. -/
def replaceFrom (old new : GoString) : Nat → GoString → GoString
  | _, [] => if old.isEmpty then new else []
  | skip + 1, _ :: cs => replaceFrom old new skip cs
  | 0, c :: cs =>
    if old.isEmpty then new ++ c :: replaceFrom old new 0 cs
    else if old.isPrefixOf (c :: cs) then new ++ replaceFrom old new (old.length - 1) cs
    else c :: replaceFrom old new 0 cs

/-- `strings.ReplaceAll(s, old, new)`. -/
def ReplaceAll (s old new : GoString) : GoString :=
  replaceFrom old new 0 s

end strings

/-! ## Package `path`: `path.Match` -/

namespace path

/-- The errors of the model of `path.Match`: Go's `ErrBadPattern`, and the
fuel of the model running out (which no call reaches). -/
inductive MatchError where
  | ErrBadPattern
  | fuelExhausted
  deriving DecidableEq, Repr

open MatchError

/-- The index at which `scanChunk` stops: the first `*` outside a bracket
class, a backslash taking the next rune with it. -/
def scanEnd : Bool → GoString → Nat
  | _, [] => 0
  | inrange, c :: cs =>
    if c = Char.ofNat 92 then
      match cs with
      | [] => 1
      | _ :: cs2 => 2 + scanEnd inrange cs2
    else if c = '[' then 1 + scanEnd true cs
    else if c = ']' then 1 + scanEnd false cs
    else if c = '*' then (if inrange then 1 + scanEnd inrange cs else 0)
    else 1 + scanEnd inrange cs

/-- `scanChunk`: the leading stars are dropped (`star` tells whether there was
one), then the pattern is cut at the next star outside a bracket class. -/
def scanChunk (pattern : GoString) : Bool × GoString × GoString :=
  let star := pattern.head? = some '*'
  let p := pattern.dropWhile (fun c => c = '*')
  let i := scanEnd false p
  (star, p.take i, p.drop i)

/-- `getEsc`: one possibly escaped rune of a bracket class and the pattern
after it. -/
def getEsc : GoString → Except MatchError (Char × GoString)
  | [] => .error ErrBadPattern
  | c :: cs =>
    if c = '-' ∨ c = ']' then .error ErrBadPattern
    else if c = Char.ofNat 92 then
      match cs with
      | [] => .error ErrBadPattern
      | r :: n => if n.isEmpty then .error ErrBadPattern else .ok (r, n)
    else if cs.isEmpty then .error ErrBadPattern
    else .ok (c, cs)

/-- The loop of `matchChunk` that reads the ranges of a bracket class: `r` is
the rune under test, `found` the flag `match`, `nrange` the ranges read so far.
Returns the flag and the pattern after the closing bracket. -/
def classLoop (r : Char) : Nat → GoString → Bool → Nat → Except MatchError (Bool × GoString)
  | 0, _, _, _ => .error fuelExhausted
  | fuel + 1, chunk, found, nrange =>
    if chunk.head? = some ']' ∧ 0 < nrange then .ok (found, chunk.tail)
    else
      match getEsc chunk with
      | .error e => .error e
      | .ok (lo, chunk1) =>
        if chunk1.head? = some '-' then
          match getEsc chunk1.tail with
          | .error e => .error e
          | .ok (hi, chunk2) =>
            classLoop r fuel chunk2 (found || (decide (lo ≤ r) && decide (r ≤ hi))) (nrange + 1)
        else
          classLoop r fuel chunk1 (found || (decide (lo ≤ r) && decide (r ≤ lo))) (nrange + 1)

/-- The loop of `matchChunk`: `failed` records that the match has failed, after
which the chunk is only checked for being well formed. The result is the
error, or `none` (no match), or the rest of `s` after the match. -/
def matchChunkLoop : Nat → GoString → GoString → Bool → Except MatchError (Option GoString)
  | 0, chunk, s, failed =>
    if chunk.isEmpty then .ok (if failed then none else some s) else .error fuelExhausted
  | fuel + 1, chunk, s, failed =>
    match chunk with
    | [] => .ok (if failed then none else some s)
    | c :: rest =>
      let failed := failed || s.isEmpty
      if c = '[' then
        let r := if failed then Char.ofNat 0 else s.headD (Char.ofNat 0)
        let s1 := if failed then s else s.tail
        let negated := rest.head? = some '^'
        let chunk1 := if negated then rest.tail else rest
        match classLoop r (chunk1.length + 1) chunk1 false 0 with
        | .error e => .error e
        | .ok (found, chunk2) =>
          matchChunkLoop fuel chunk2 s1 (failed || (found == decide negated))
      else if c = '?' then
        if failed then matchChunkLoop fuel rest s failed
        else matchChunkLoop fuel rest s.tail (s.head? = some '/')
      else if c = Char.ofNat 92 then
        match rest with
        | [] => .error ErrBadPattern
        | d :: rest2 =>
          if failed then matchChunkLoop fuel rest2 s failed
          else matchChunkLoop fuel rest2 s.tail (s.head? ≠ some d)
      else
        if failed then matchChunkLoop fuel rest s failed
        else matchChunkLoop fuel rest s.tail (s.head? ≠ some c)

/-- `matchChunk(chunk, s)`. -/
def matchChunk (chunk s : GoString) : Except MatchError (Option GoString) :=
  matchChunkLoop chunk.length chunk s false

/-- The loop of `Match` that retries the chunk after skipping one more rune of
`name`, never skipping a `/`. `last` says that no pattern is left after the
chunk, in which case a match must use up the name. -/
def starSearch (chunk : GoString) (last : Bool) : GoString → Except MatchError (Option GoString)
  | [] => .ok none
  | c :: cs =>
    if c = '/' then .ok none
    else
      match matchChunk chunk cs with
      | .error e => .error e
      | .ok (some t) => if last ∧ t ≠ [] then starSearch chunk last cs else .ok (some t)
      | .ok none => starSearch chunk last cs

/-- The closing loop of `Match`: before answering "no match" the remainder of
the pattern is checked for being well formed. -/
def checkRest : Nat → GoString → Except MatchError Unit
  | 0, pattern => if pattern.isEmpty then .ok () else .error fuelExhausted
  | fuel + 1, pattern =>
    if pattern.isEmpty then .ok ()
    else
      match matchChunk (scanChunk pattern).2.1 [] with
      | .error e => .error e
      | .ok _ => checkRest fuel (scanChunk pattern).2.2

/-- The main loop of `Match`, one chunk of the pattern per round. -/
def MatchLoop : Nat → GoString → GoString → Except MatchError Bool
  | 0, pattern, name =>
    if pattern.isEmpty then .ok name.isEmpty else .error fuelExhausted
  | fuel + 1, pattern, name =>
    if pattern.isEmpty then .ok name.isEmpty
    else
      let star := (scanChunk pattern).1
      let chunk := (scanChunk pattern).2.1
      let rest := (scanChunk pattern).2.2
      if star ∧ chunk = [] then .ok (name.all (fun c => c ≠ '/'))
      else
        match matchChunk chunk name with
        | .error e => .error e
        | .ok direct =>
          match (match direct with
                 | some t => if t = [] ∨ rest ≠ [] then some t else none
                 | none => none) with
          | some t => MatchLoop fuel rest t
          | none =>
            match (if star then starSearch chunk (decide (rest = [])) name else .ok none) with
            | .error e => .error e
            | .ok (some t) => MatchLoop fuel rest t
            | .ok none =>
              match checkRest rest.length rest with
              | .error e => .error e
              | .ok _ => .ok false

/-- `path.Match(pattern, name)`. -/
def Match (pattern name : GoString) : Except MatchError Bool :=
  MatchLoop pattern.length pattern name

end path

/-! ## `internal/migrate/types.go` -/

/-- `UserRecord`: source-side user information. -/
structure UserRecord where
  User : GoString
  Host : GoString
  Plugin : GoString
  AuthString : GoString
  Grants : List GoString
  RawIdentity : GoString
  deriving DecidableEq, Repr

/-- `UserResult`: the outcome per user on a target. -/
structure UserResult where
  User : GoString
  Host : GoString
  Status : GoString
  Error : GoString
  deriving DecidableEq, Repr

/-- `config.Target`: a destination instance. -/
structure Target where
  Name : GoString
  DSN : GoString
  deriving DecidableEq, Repr

/-- `TargetReport`: the summary of the migration to one target. The counts
never exceed the number of users, so they are natural numbers; times are
readings of the clock in milliseconds. -/
structure TargetReport where
  Target : GoString
  Applied : Nat
  Skipped : Nat
  Failed : Nat
  Users : List UserResult
  Error : GoString
  DurationMS : Int
  DryRun : Bool
  StartedAt : Int
  FinishedAt : Int
  deriving DecidableEq, Repr

/-- `Report`: all target reports of a run and its totals. -/
structure Report where
  Source : GoString
  DryRun : Bool
  StartedAt : Int
  FinishedAt : Int
  Targets : List TargetReport
  TotalFailed : Nat
  TotalUsers : Nat
  deriving DecidableEq, Repr

/-! ## `internal/migrate/runner.go` -/

/-- `Runner`: the orchestrator and its policy flags (the logger is left out). -/
structure Runner where
  SourceDSN : GoString
  Targets : List Target
  Include : List GoString
  Exclude : List GoString
  DryRun : Bool
  DropMissing : Bool
  ForceOverwrite : Bool
  Concurrency : Int
  deriving DecidableEq, Repr

/-- `escape`: backslashes are doubled, then single quotes are doubled. -/
def escape (value : GoString) : GoString :=
  let value := strings.ReplaceAll value [Char.ofNat 92] [Char.ofNat 92, Char.ofNat 92]
  let value := strings.ReplaceAll value [Char.ofNat 39] [Char.ofNat 39, Char.ofNat 39]
  value

/-- The statement text built by `dropUser`. -/
def dropUserStmt (user : UserRecord) : GoString :=
  "DROP USER IF EXISTS '".toList ++ escape user.User ++ "'@'".toList ++ escape user.Host ++
    "'".toList

/-- The statement text built by `createUser`. -/
def createUserStmt (user : UserRecord) : GoString :=
  let stmt := "CREATE USER IF NOT EXISTS '".toList ++ escape user.User ++ "'@'".toList ++
    escape user.Host ++ "'".toList
  if user.Plugin ≠ [] ∧ user.AuthString ≠ [] then
    stmt ++ " IDENTIFIED WITH '".toList ++ escape user.Plugin ++ "' AS '".toList ++
      escape user.AuthString ++ "'".toList
  else if user.AuthString ≠ [] then
    stmt ++ " IDENTIFIED BY PASSWORD '".toList ++ escape user.AuthString ++ "'".toList
  else stmt

/-- `normalizePattern`, the loop: `**` is replaced by `*` while it occurs. -/
def normalizeLoop : Nat → GoString → GoString
  | 0, p => p
  | fuel + 1, p =>
    if strings.Contains p "**".toList then
      normalizeLoop fuel (strings.ReplaceAll p "**".toList "*".toList)
    else p

/-- `normalizePattern`: `%` becomes `*`, runs of `*` collapse to one. Every
round of the loop shortens the pattern, so its length is fuel enough. -/
def normalizePattern (p : GoString) : GoString :=
  let p := strings.ReplaceAll p "%".toList "*".toList
  normalizeLoop p.length p

/-- `matchGlob`. -/
def matchGlob (value pattern : GoString) : Bool :=
  let pattern := normalizePattern pattern
  if pattern = [] then false
  else if pattern = "*".toList then true
  else
    match path.Match pattern value with
    | .ok ok => ok
    | .error _ => pattern == value

/-- The user and host parts of a trimmed, lower-cased pattern in
`MatchIdentity`: split at the first `@`, the host part empty without one. -/
def splitPattern (pattern : GoString) : GoString × GoString :=
  if strings.Contains pattern "@".toList then
    let parts := strings.SplitN2 pattern "@".toList
    (parts.getD 0 [], parts.getD 1 [])
  else (pattern, [])

/-- `MatchIdentity`. -/
def MatchIdentity (U : UnicodeTables) (user host pattern : GoString) : Bool :=
  let pattern := strings.TrimSpace U (strings.ToLower U pattern)
  if pattern = [] then false
  else
    let userPat := (splitPattern pattern).1
    let hostPat := (splitPattern pattern).2
    if !matchGlob user userPat then false
    else if hostPat = [] then true
    else matchGlob host hostPat

/-- The loop `for _, p := range patterns { if MatchIdentity(u, h, p) ... }` of
`ShouldInclude`: whether some pattern matches. -/
def anyMatch (U : UnicodeTables) (u h : GoString) : List GoString → Bool
  | [] => false
  | p :: ps => if MatchIdentity U u h p then true else anyMatch U u h ps

/-- `ShouldInclude`; `includes` and `excludes` are the source's `include` and
`exclude`. -/
def ShouldInclude (U : UnicodeTables) (user host : GoString) (includes excludes : List GoString) :
    Bool :=
  let u := strings.ToLower U user
  let h := strings.ToLower U host
  if anyMatch U u h excludes then false
  else if includes.length = 0 then true
  else if anyMatch U u h includes then true
  else false

/-- The part of the MySQL driver that `MaskDSN` calls: `mysql.ParseDSN`
(`none` when it returns an error), the assignment to `cfg.Passwd`, and
`cfg.FormatDSN`. -/
structure DSNDriver (Cfg : Type) where
  ParseDSN : GoString → Option Cfg
  setPasswd : Cfg → GoString → Cfg
  FormatDSN : Cfg → GoString

/-- `MaskDSN`. -/
def MaskDSN {Cfg : Type} (D : DSNDriver Cfg) (dsn : GoString) : GoString :=
  match D.ParseDSN dsn with
  | some cfg => D.FormatDSN (D.setPasswd cfg "****".toList)
  | none =>
    match strings.Index dsn "@".toList with
    | none => dsn
    | some at_ =>
      let before := dsn.take at_
      let before :=
        match strings.Index before ":".toList with
        | some colon => before.take colon ++ ":****".toList
        | none => before
      before ++ dsn.drop at_

/-- A driver that keeps of `mysql.ParseDSN` its first check only: a non-empty
DSN without `/` is rejected. It stands for the real driver on such DSNs, and
it is evaluated on such DSNs only; on the others it hands the DSN back as it
is, which the real driver does not. -/
def noSlashDriver : DSNDriver GoString where
  ParseDSN := fun dsn => if dsn ≠ [] ∧ dsn.all (fun c => c ≠ '/') then none else some dsn
  setPasswd := fun cfg _ => cfg
  FormatDSN := fun cfg => cfg

/-! ### The target connection -/

/-- What the engine needs of a target database with states `σ`: the count
returned by the existence query (or its error), and `ExecContext`, which gives
the next state and the error, if any. -/
structure TargetDB (σ : Type) where
  countUser : σ → GoString → GoString → Except GoString Int
  exec : σ → GoString → σ × Option GoString

/-- An open connection: the state of the target, and every statement passed to
`ExecContext` so far, oldest first. -/
structure Conn (σ : Type) where
  state : σ
  issued : List GoString

/-- `db.ExecContext(ctx, stmt)`: the statement is logged and run. -/
def ExecContext {σ : Type} (T : TargetDB σ) (c : Conn σ) (stmt : GoString) :
    Conn σ × Option GoString :=
  (⟨(T.exec c.state stmt).1, c.issued ++ [stmt]⟩, (T.exec c.state stmt).2)

/-- `userExists`: the count query; the account exists when the count is
positive. -/
def userExists {σ : Type} (T : TargetDB σ) (c : Conn σ) (user host : GoString) :
    Except GoString Bool :=
  match T.countUser c.state user host with
  | .error err => .error err
  | .ok count => .ok (decide (count > 0))

/-- `dropUser`. -/
def dropUser {σ : Type} (T : TargetDB σ) (c : Conn σ) (user : UserRecord) :
    Conn σ × Option GoString :=
  ExecContext T c (dropUserStmt user)

/-- `createUser`. -/
def createUser {σ : Type} (T : TargetDB σ) (c : Conn σ) (user : UserRecord) :
    Conn σ × Option GoString :=
  ExecContext T c (createUserStmt user)

/-- `applyGrant`. -/
def applyGrant {σ : Type} (T : TargetDB σ) (c : Conn σ) (grant : GoString) :
    Conn σ × Option GoString :=
  ExecContext T c grant

/-- The loop over `user.Grants` in `applyUser`: grants are applied in order
and the loop is left at the first error. -/
def grantLoop {σ : Type} (T : TargetDB σ) : Conn σ → List GoString → Conn σ × Option GoString
  | c, [] => (c, none)
  | c, grant :: grants =>
    match applyGrant T c grant with
    | (c1, some err) => (c1, some err)
    | (c1, none) => grantLoop T c1 grants

/-- `Runner.applyUser` from the loop over the grants to its end: the grants
are applied, the first error ends the reconciliation with the status `error`,
and after the last grant the status is `applied`. -/
def applyUserGrants {σ : Type} (T : TargetDB σ) (out : UserResult) (identity : GoString)
    (c : Conn σ) (grants : List GoString) : UserResult × Conn σ :=
  match grantLoop T c grants with
  | (c1, some err) =>
    ({ out with Status := "error".toList,
                Error := "grant ".toList ++ identity ++ ": ".toList ++ err }, c1)
  | (c1, none) => ({ out with Status := "applied".toList }, c1)

/-- `Runner.applyUser` from the test `if !exists` to its end: an account that
does not exist (any more) is created, then the grants follow. -/
def applyUserCreate {σ : Type} (T : TargetDB σ) (out : UserResult) (identity : GoString)
    (exists1 : Bool) (c : Conn σ) (user : UserRecord) : UserResult × Conn σ :=
  if !exists1 then
    match createUser T c user with
    | (c1, some err) =>
      ({ out with Status := "error".toList,
                  Error := "create ".toList ++ identity ++ ": ".toList ++ err }, c1)
    | (c1, none) => applyUserGrants T out identity c1 user.Grants
  else applyUserGrants T out identity c user.Grants

/-- `Runner.applyUser`: the reconciliation of one user on one target. Returns
the result and the connection afterwards. -/
def applyUser {σ : Type} (T : TargetDB σ) (r : Runner) (c : Conn σ) (user : UserRecord) :
    UserResult × Conn σ :=
  let identity := user.User ++ "@".toList ++ user.Host
  let out : UserResult := ⟨user.User, user.Host, [], []⟩
  match userExists T c user.User user.Host with
  | .error err => ({ out with Status := "error".toList, Error := "check exists: ".toList ++ err }, c)
  | .ok exists0 =>
    if r.DryRun then
      if exists0 && !(r.DropMissing || r.ForceOverwrite) then
        ({ out with Status := "planned".toList }, c)
      else
        ({ out with Status := "planned".toList }, c)
    else if exists0 && (r.DropMissing || r.ForceOverwrite) then
      match dropUser T c user with
      | (c1, some err) =>
        ({ out with Status := "error".toList,
                    Error := "drop ".toList ++ identity ++ ": ".toList ++ err }, c1)
      | (c1, none) => applyUserCreate T out identity false c1 user
    else applyUserCreate T out identity exists0 c user

/-! ### One target (`Runner.migrateTarget`) and the whole run (`Runner.Run`) -/

/-- The loop over the users in `migrateTarget`: each user is reconciled on the
connection left by the one before, its result is appended to `Users`, and its
status is counted. -/
def userLoop {σ : Type} (T : TargetDB σ) (r : Runner) :
    Conn σ → List UserRecord → TargetReport → TargetReport
  | _, [], result => result
  | db, user :: users, result =>
    let userResult := (applyUser T r db user).1
    let result := { result with Users := result.Users ++ [userResult] }
    let result :=
      if userResult.Status = "applied".toList ∨ userResult.Status = "planned".toList then
        { result with Applied := result.Applied + 1 }
      else if userResult.Status = "skipped".toList then
        { result with Skipped := result.Skipped + 1 }
      else if userResult.Status = "error".toList then
        { result with Failed := result.Failed + 1 }
      else
        { result with Failed := result.Failed + 1 }
    userLoop T r (applyUser T r db user).2 users result

/-- `Runner.migrateTarget`. `openDB` is the connection attempt (open and
ping) with its error, `start` and `finish` are the two readings of the
clock. -/
def migrateTarget {Cfg σ : Type} (D : DSNDriver Cfg) (T : TargetDB σ)
    (openDB : GoString → Except GoString (Conn σ)) (r : Runner) (start finish : Int)
    (users : List UserRecord) (target : Target) : TargetReport :=
  let targetName := if target.Name = [] then MaskDSN D target.DSN else target.Name
  let result : TargetReport :=
    { Target := targetName, Applied := 0, Skipped := 0, Failed := 0, Users := [], Error := [],
      DurationMS := 0, DryRun := r.DryRun, StartedAt := start, FinishedAt := 0 }
  match openDB target.DSN with
  | .error err =>
    { result with Error := "connect target: ".toList ++ err,
                  Failed := users.length,
                  FinishedAt := finish,
                  DurationMS := finish - start }
  | .ok db =>
    let result := userLoop T r db users result
    { result with FinishedAt := finish, DurationMS := finish - start }

/-- What `loadSourceUsers` reads from the source: the rows `(user, host,
plugin, authentication_string)` of `mysql.user` (or the error of the query or
of reading its rows), and the answer to a `SHOW GRANTS` statement. -/
structure SourceDB where
  userRows : Except GoString (List (GoString × GoString × GoString × GoString))
  showGrants : GoString → Except GoString (List GoString)

/-- The statement text built by `fetchGrants`. -/
def fetchGrantsStmt (user host : GoString) : GoString :=
  "SHOW GRANTS FOR '".toList ++ escape user ++ "'@'".toList ++ escape host ++ "'".toList

/-- `fetchGrants`. -/
def fetchGrants (S : SourceDB) (user host : GoString) : Except GoString (List GoString) :=
  S.showGrants (fetchGrantsStmt user host)

/-- The loop over the rows in `loadSourceUsers`: rows that `ShouldInclude`
rejects are passed over, for the others the grants are fetched and the record
is appended. -/
def loadRows (U : UnicodeTables) (r : Runner) (S : SourceDB) :
    List (GoString × GoString × GoString × GoString) → List UserRecord →
      Except GoString (List UserRecord)
  | [], users => .ok users
  | (user, host, plugin, auth) :: rows, users =>
    if !ShouldInclude U user host r.Include r.Exclude then loadRows U r S rows users
    else
      match fetchGrants S user host with
      | .error err =>
        .error ("grants for ".toList ++ user ++ "@".toList ++ host ++ ": ".toList ++ err)
      | .ok grants =>
        loadRows U r S rows
          (users ++ [⟨user, host, plugin, auth, grants, user ++ "@".toList ++ host⟩])

/-- `Runner.loadSourceUsers`. -/
def loadSourceUsers (U : UnicodeTables) (r : Runner) (S : SourceDB) :
    Except GoString (List UserRecord) :=
  match S.userRows with
  | .error err => .error err
  | .ok rows =>
    match loadRows U r S rows [] with
    | .error err => .error err
    | .ok users =>
      if users.length = 0 then .error "no users matched include/exclude filters".toList
      else .ok users

/-- The loop `for res := range results` of `Run`: each target report is
appended and its counts are added to the totals. -/
def mergeResults (report : Report) : List TargetReport → Report
  | [] => report
  | res :: results =>
    mergeResults
      { report with Targets := report.Targets ++ [res],
                    TotalFailed := report.TotalFailed + res.Failed,
                    TotalUsers := report.TotalUsers + res.Users.length }
      results

/-- `Runner.Run`. `openSource` and `openDB` are the connection attempts to the
source and to a target; `clock` gives the two clock readings of each target's
worker, `start` and `finish` those of the run. The workers run side by side
and hand in their reports in an order the scheduler chooses; the reports are
taken here in the order of `r.Targets` (the totals do not depend on the
order). -/
def Run {Cfg σ : Type} (U : UnicodeTables) (D : DSNDriver Cfg) (T : TargetDB σ)
    (openSource : GoString → Except GoString SourceDB)
    (openDB : GoString → Except GoString (Conn σ)) (clock : Target → Int × Int)
    (start finish : Int) (r : Runner) : Except GoString Report :=
  let r := if r.Concurrency ≤ 0 then { r with Concurrency := 1 } else r
  match openSource r.SourceDSN with
  | .error err => .error ("connect source: ".toList ++ err)
  | .ok srcDB =>
    match loadSourceUsers U r srcDB with
    | .error err => .error ("load source users: ".toList ++ err)
    | .ok sourceUsers =>
      let report : Report :=
        { Source := MaskDSN D r.SourceDSN, DryRun := r.DryRun, StartedAt := start,
          FinishedAt := 0, Targets := [], TotalFailed := 0, TotalUsers := 0 }
      let results := r.Targets.map
        (fun t => migrateTarget D T openDB r (clock t).1 (clock t).2 sourceUsers t)
      let report := mergeResults report results
      .ok { report with FinishedAt := finish }

/-! ## The wording of the specification

Definitions that follow the wording of the specification, to be compared with
the code above, and small concrete targets on which the code is run. -/

/-- The statements a reconciliation plans when the existence check answered
`exists0`, in the words of the specification: a drop of the account exactly
when it exists and `dropMissing` or `forceOverwrite` is set; a create exactly
when it did not exist or was just dropped; then the grants in recorded
order. -/
def plannedStatements (r : Runner) (exists0 : Bool) (user : UserRecord) : List GoString :=
  (if exists0 && (r.DropMissing || r.ForceOverwrite) then [dropUserStmt user] else []) ++
  (if !exists0 || (exists0 && (r.DropMissing || r.ForceOverwrite)) then [createUserStmt user]
   else []) ++
  user.Grants

/-- Statements issued one after the other up to and including the first that
fails: the connection afterwards, and whether every statement succeeded. -/
def execUntilFailure {σ : Type} (T : TargetDB σ) : Conn σ → List GoString → Conn σ × Bool
  | c, [] => (c, true)
  | c, stmt :: stmts =>
    match ExecContext T c stmt with
    | (c1, some _) => (c1, false)
    | (c1, none) => execUntilFailure T c1 stmts

/-- The body of a single-quoted MySQL literal read by the rules the
specification names: a backslash escapes the character after it, two
consecutive single quotes denote one quote. The result is the text denoted, or
`none` when a single quote stands unpaired or a backslash is left dangling at
the end. -/
def decodeLiteral : GoString → Option GoString
  | [] => some []
  | c :: cs =>
    if c = Char.ofNat 92 then
      match cs with
      | [] => none
      | d :: ds => (decodeLiteral ds).map (fun body => d :: body)
    else if c = Char.ofNat 39 then
      match cs with
      | [] => none
      | d :: ds =>
        if d = Char.ofNat 39 then (decodeLiteral ds).map (fun body => Char.ofNat 39 :: body)
        else none
    else (decodeLiteral cs).map (fun body => c :: body)

/-- A single-quoted MySQL literal read from just after its opening quote, by
the same rules: the text denoted and the statement text that follows the
closing quote, or `none` when the literal is not closed. -/
def readLiteral : GoString → Option (GoString × GoString)
  | [] => none
  | c :: cs =>
    if c = Char.ofNat 92 then
      match cs with
      | [] => none
      | d :: ds => (readLiteral ds).map (fun br => (d :: br.1, br.2))
    else if c = Char.ofNat 39 then
      match cs with
      | [] => some ([], [])
      | d :: ds =>
        if d = Char.ofNat 39 then (readLiteral ds).map (fun br => (Char.ofNat 39 :: br.1, br.2))
        else some ([], d :: ds)
    else (readLiteral cs).map (fun br => (c :: br.1, br.2))

/-- A piece of a statement text as the server reads it: text outside every
literal, or the value of a single-quoted literal. -/
inductive StatementPiece where
  | text (s : GoString)
  | literal (v : GoString)
  deriving DecidableEq, Repr

/-- A statement text read piece by piece: the text up to the next single
quote, then the literal that this quote opens (read by `readLiteral`), then
the same again on what follows the closing quote. The result is `none` when a
literal is not closed. Every round passes at least the opening quote, so the
length of the text is fuel enough. -/
def readStatementLoop : Nat → GoString → Option (List StatementPiece)
  | _, [] => some []
  | 0, _ :: _ => none
  | fuel + 1, c :: cs =>
    let txt := (c :: cs).takeWhile (fun x => x ≠ Char.ofNat 39)
    let pre := if txt = [] then [] else [StatementPiece.text txt]
    match (c :: cs).dropWhile (fun x => x ≠ Char.ofNat 39) with
    | [] => some pre
    | _ :: body =>
      match readLiteral body with
      | none => none
      | some (v, rest) =>
        (readStatementLoop fuel rest).map (fun ps => pre ++ StatementPiece.literal v :: ps)

/-- The pieces of a statement text: its texts and the values of its
single-quoted literals, in order. -/
def readStatement (stmt : GoString) : Option (List StatementPiece) :=
  readStatementLoop stmt.length stmt

/-- A user record whose name tries to close the literal and add a condition,
for concrete runs. -/
def hostileUser : UserRecord where
  User := "o'brien\\' OR '1'='1".toList
  Host := "%".toList
  Plugin := "mysql_native_password".toList
  AuthString := "x' --".toList
  Grants := []
  RawIdentity := "o'brien\\' OR '1'='1@%".toList

/-- A scripted target for concrete runs. Its state is the list of statements
that took effect; `count` is the answer of the existence query and `rejects`
tells which statements fail (with the error text `denied`). -/
def scriptedDB (count : Except GoString Int) (rejects : GoString → Bool) :
    TargetDB (List GoString) where
  countUser := fun _ _ _ => count
  exec := fun s stmt => if rejects stmt then (s, some "denied".toList) else (s ++ [stmt], none)

/-- A user record for concrete runs: `app@localhost` with one grant. -/
def sampleUser : UserRecord where
  User := "app".toList
  Host := "localhost".toList
  Plugin := "mysql_native_password".toList
  AuthString := "*81F5E21E".toList
  Grants := ["GRANT USAGE ON *.* TO app@localhost".toList]
  RawIdentity := "app@localhost".toList

/-- A runner with the given policy flags `dryRun`, `dropMissing` and
`forceOverwrite`, and nothing else configured. -/
def policyRunner (dryRun dropMissing forceOverwrite : Bool) : Runner where
  SourceDSN := []
  Targets := []
  Include := []
  Exclude := []
  DryRun := dryRun
  DropMissing := dropMissing
  ForceOverwrite := forceOverwrite
  Concurrency := 1

/-- A user result that counts toward `Applied`: status `applied` or
`planned`. -/
def countsApplied (u : UserResult) : Bool :=
  decide (u.Status = "applied".toList ∨ u.Status = "planned".toList)

/-- A user result that counts toward `Skipped`: status `skipped`. -/
def countsSkipped (u : UserResult) : Bool :=
  decide (u.Status = "skipped".toList)

/-- A user result that counts toward `Failed`: status `error` or any other
status. -/
def countsFailed (u : UserResult) : Bool :=
  !countsApplied u && !countsSkipped u

/-- A source for concrete runs: its `mysql.user` has the one account
`app@localhost`, with one grant. -/
def sampleSource : SourceDB where
  userRows := .ok [("app".toList, "localhost".toList, "mysql_native_password".toList,
    "*81F5E21E".toList)]
  showGrants := fun _ => .ok ["GRANT USAGE ON *.* TO app@localhost".toList]

/-- A pattern text without glob metacharacters: no `*`, `%`, `?`, `[` and no
backslash. -/
def plainText (p : GoString) : Prop :=
  ∀ c ∈ p, c ≠ '*' ∧ c ≠ '%' ∧ c ≠ '?' ∧ c ≠ '[' ∧ c ≠ Char.ofNat 92

/-! # Theorems -/

/-! ## The loops finish within their fuel -/

theorem isPrefixOf_pair_length (a b : Char) (s : GoString)
    (hp : List.isPrefixOf [a, b] s = true) : 2 ≤ s.length := by
  match s, hp with
  | [], hp => simp [List.isPrefixOf] at hp
  | [_], hp => simp [List.isPrefixOf] at hp
  | _ :: _ :: _, _ => simp

theorem replaceFrom_pair_length (a b n : Char) (skip : Nat) (s : GoString) :
    (strings.replaceFrom [a, b] [n] skip s).length ≤ s.length - skip := by
  induction s generalizing skip with
  | nil => simp [strings.replaceFrom]
  | cons c cs ih =>
    cases skip with
    | succ k =>
      simp only [strings.replaceFrom, List.length_cons, Nat.add_sub_add_right]
      exact ih k
    | zero =>
      by_cases hp : List.isPrefixOf [a, b] (c :: cs) = true
      · have h1 := ih 1
        have hlen := isPrefixOf_pair_length a b _ hp
        simp only [List.length_cons] at hlen
        simp only [strings.replaceFrom, hp, List.isEmpty_cons, Bool.false_eq_true, if_false,
          if_true]
        rw [show ([a, b] : GoString).length - 1 = 1 from rfl]
        simp only [List.length_append, List.length_cons, List.length_nil, Nat.sub_zero]
        omega
      · have h0 := ih 0
        simp only [strings.replaceFrom, hp, List.isEmpty_cons, Bool.false_eq_true, if_false,
          List.length_cons, Nat.sub_zero]
        omega

theorem ReplaceAll_pair_shorter (a b n : Char) (s : GoString)
    (h : strings.Contains s [a, b] = true) :
    (strings.ReplaceAll s [a, b] [n]).length < s.length := by
  induction s with
  | nil => simp [strings.Contains, strings.Index] at h
  | cons c cs ih =>
    by_cases hp : List.isPrefixOf [a, b] (c :: cs) = true
    · have h1 := replaceFrom_pair_length a b n 1 cs
      have hlen := isPrefixOf_pair_length a b _ hp
      simp only [List.length_cons] at hlen
      simp only [strings.ReplaceAll, strings.replaceFrom, hp, List.isEmpty_cons,
        Bool.false_eq_true, if_false, if_true]
      rw [show ([a, b] : GoString).length - 1 = 1 from rfl]
      simp only [List.length_append, List.length_cons, List.length_nil]
      omega
    · have hc : strings.Contains cs [a, b] = true := by
        simp only [strings.Contains, strings.Index, hp, Bool.false_eq_true, if_false,
          Option.isSome_map'] at h
        exact h
      have h0 := ih hc
      simp only [strings.ReplaceAll] at h0
      simp only [strings.ReplaceAll, strings.replaceFrom, hp, List.isEmpty_cons,
        Bool.false_eq_true, if_false, List.length_cons]
      omega

theorem normalizeLoop_done (fuel : Nat) (p : GoString) (h : p.length ≤ fuel) :
    strings.Contains (normalizeLoop fuel p) "**".toList = false := by
  induction fuel generalizing p with
  | zero =>
    have hp : p = [] := List.length_eq_zero.mp (Nat.le_zero.mp h)
    subst hp
    decide
  | succ n ih =>
    unfold normalizeLoop
    by_cases hc : strings.Contains p "**".toList = true
    · rw [if_pos hc]
      apply ih
      have : (strings.ReplaceAll p "**".toList "*".toList).length < p.length :=
        ReplaceAll_pair_shorter '*' '*' '*' p hc
      omega
    · rw [if_neg hc]
      simpa using hc

/-- The loop of `normalizePattern` ends within its fuel: the result contains
no `**`. -/
theorem normalizePattern_no_double_star (p : GoString) :
    strings.Contains (normalizePattern p) "**".toList = false :=
  normalizeLoop_done _ _ (Nat.le_refl _)

open path in
theorem getEsc_spec (chunk : GoString) :
    (∀ e, getEsc chunk = .error e → e = MatchError.ErrBadPattern) ∧
    ∀ r n, getEsc chunk = .ok (r, n) → n.length < chunk.length := by
  unfold getEsc
  cases chunk with
  | nil => simp
  | cons c cs =>
    simp only
    split
    · simp
    · split
      · cases cs with
        | nil => simp
        | cons d ds =>
          simp only
          split
          · simp
          · refine ⟨by simp, ?_⟩
            intro r n h
            simp only [Except.ok.injEq, Prod.mk.injEq] at h
            rw [← h.2]
            simp only [List.length_cons]
            omega
      · split
        · simp
        · refine ⟨by simp, ?_⟩
          intro r n h
          simp only [Except.ok.injEq, Prod.mk.injEq] at h
          rw [← h.2]
          simp

open path in
theorem classLoop_spec (r : Char) (fuel : Nat) (chunk : GoString) (found : Bool) (nrange : Nat)
    (hfuel : chunk.length < fuel) :
    (∀ e, classLoop r fuel chunk found nrange = .error e → e = MatchError.ErrBadPattern) ∧
    ∀ f c2, classLoop r fuel chunk found nrange = .ok (f, c2) → c2.length < chunk.length := by
  induction fuel generalizing chunk found nrange with
  | zero => omega
  | succ k ih =>
    unfold classLoop
    split
    · rename_i hclose
      refine ⟨by simp, ?_⟩
      intro f c2 h
      simp only [Except.ok.injEq, Prod.mk.injEq] at h
      rw [← h.2]
      cases chunk with
      | nil => simp at hclose
      | cons d ds => simp
    · have hg := getEsc_spec chunk
      cases h1 : getEsc chunk with
      | error e =>
        simp only
        refine ⟨fun e2 h => ?_, fun f c2 h => by simp at h⟩
        simp only [Except.error.injEq] at h
        rw [← h]
        exact hg.1 e h1
      | ok v =>
        obtain ⟨lo, chunk1⟩ := v
        have hlt1 := hg.2 lo chunk1 h1
        simp only
        split
        · have hg2 := getEsc_spec chunk1.tail
          cases h2 : getEsc chunk1.tail with
          | error e =>
            simp only
            refine ⟨fun e2 h => ?_, fun f c2 h => by simp at h⟩
            simp only [Except.error.injEq] at h
            rw [← h]
            exact hg2.1 e h2
          | ok w =>
            obtain ⟨hi, chunk2⟩ := w
            have hlt2 := hg2.2 hi chunk2 h2
            have htl : chunk1.tail.length ≤ chunk1.length := by simp
            simp only
            have := ih chunk2 (found || (decide (lo ≤ r) && decide (r ≤ hi))) (nrange + 1)
              (by omega)
            exact ⟨this.1, fun f c2 h => by have := this.2 f c2 h; omega⟩
        · have := ih chunk1 (found || (decide (lo ≤ r) && decide (r ≤ lo))) (nrange + 1)
            (by omega)
          exact ⟨this.1, fun f c2 h => by have := this.2 f c2 h; omega⟩

open path in
theorem matchChunkLoop_fuel (fuel : Nat) (chunk s : GoString) (failed : Bool)
    (hfuel : chunk.length ≤ fuel) :
    ∀ e, matchChunkLoop fuel chunk s failed = .error e → e = MatchError.ErrBadPattern := by
  induction fuel generalizing chunk s failed with
  | zero =>
    have hc : chunk = [] := List.length_eq_zero.mp (Nat.le_zero.mp hfuel)
    subst hc
    simp [matchChunkLoop]
  | succ k ih =>
    unfold matchChunkLoop
    cases chunk with
    | nil => simp
    | cons c rest =>
      have hrest : rest.length ≤ k := by simpa using hfuel
      simp only
      split
      · have htl : rest.tail.length ≤ rest.length := by simp
        have hc1 : (if rest.head? = some '^' then rest.tail else rest).length ≤ rest.length := by
          split
          · exact htl
          · exact Nat.le_refl _
        have hcl := classLoop_spec
          (if (failed || s.isEmpty) = true then Char.ofNat 0 else s.headD (Char.ofNat 0))
          ((if rest.head? = some '^' then rest.tail else rest).length + 1)
          (if rest.head? = some '^' then rest.tail else rest) false 0 (Nat.lt_succ_self _)
        cases hcr : classLoop
          (if (failed || s.isEmpty) = true then Char.ofNat 0 else s.headD (Char.ofNat 0))
          ((if rest.head? = some '^' then rest.tail else rest).length + 1)
          (if rest.head? = some '^' then rest.tail else rest) false 0 with
        | error e =>
          simp only
          intro e2 h
          simp only [Except.error.injEq] at h
          rw [← h]
          exact hcl.1 e hcr
        | ok v =>
          obtain ⟨found, chunk2⟩ := v
          have := hcl.2 found chunk2 hcr
          simp only
          exact ih _ _ _ (by omega)
      · split
        · split
          · exact ih _ _ _ hrest
          · exact ih _ _ _ hrest
        · split
          · cases rest with
            | nil => simp
            | cons d rest2 =>
              have : rest2.length ≤ k := by
                simp only [List.length_cons] at hrest
                omega
              simp only
              split
              · exact ih _ _ _ this
              · exact ih _ _ _ this
          · split
            · exact ih _ _ _ hrest
            · exact ih _ _ _ hrest

open path in
theorem matchChunk_fuel (chunk s : GoString) :
    ∀ e, matchChunk chunk s = .error e → e = MatchError.ErrBadPattern :=
  matchChunkLoop_fuel _ _ _ _ (Nat.le_refl _)

open path in
theorem starSearch_fuel (chunk : GoString) (last : Bool) (name : GoString) :
    ∀ e, starSearch chunk last name = .error e → e = MatchError.ErrBadPattern := by
  induction name with
  | nil => simp [starSearch]
  | cons c cs ih =>
    unfold starSearch
    split
    · simp
    · have hm := matchChunk_fuel chunk cs
      cases hmc : matchChunk chunk cs with
      | error e =>
        simp only
        intro e2 h
        simp only [Except.error.injEq] at h
        rw [← h]
        exact hm e hmc
      | ok v =>
        cases v with
        | none => exact ih
        | some t =>
          simp only
          split
          · exact ih
          · simp

open path in
theorem scanEnd_pos (inrange : Bool) (c : Char) (cs : GoString) (hc : c ≠ '*') :
    1 ≤ scanEnd inrange (c :: cs) := by
  unfold scanEnd
  split
  · cases cs with
    | nil => simp
    | cons d ds => simp only; omega
  · split
    · omega
    · split
      · omega
      · omega

theorem dropWhile_star_length (p : GoString) :
    (p.dropWhile (fun c => decide (c = '*'))).length ≤ p.length := by
  induction p with
  | nil => simp
  | cons c cs ih =>
    simp only [List.dropWhile_cons]
    split
    · simp only [List.length_cons]; omega
    · exact Nat.le_refl _

open path in
theorem scanChunk_rest_length (pattern : GoString) (hne : pattern ≠ []) :
    (scanChunk pattern).2.2.length < pattern.length := by
  cases pattern with
  | nil => exact absurd rfl hne
  | cons c cs =>
    simp only [scanChunk, List.length_drop]
    by_cases hc : c = '*'
    · have := dropWhile_star_length cs
      simp only [List.dropWhile_cons, hc, decide_True, if_true, List.length_cons]
      omega
    · have := scanEnd_pos false c cs hc
      simp only [List.dropWhile_cons, hc, decide_False, Bool.false_eq_true, if_false,
        List.length_cons]
      omega

open path in
theorem checkRest_fuel (fuel : Nat) (pattern : GoString) (hfuel : pattern.length ≤ fuel) :
    ∀ e, checkRest fuel pattern = .error e → e = MatchError.ErrBadPattern := by
  induction fuel generalizing pattern with
  | zero =>
    have hc : pattern = [] := List.length_eq_zero.mp (Nat.le_zero.mp hfuel)
    subst hc
    simp [checkRest]
  | succ k ih =>
    unfold checkRest
    split
    · simp
    · rename_i hne
      have hne2 : pattern ≠ [] := by
        intro h
        apply hne
        simp [h]
      have hlt := scanChunk_rest_length pattern hne2
      have hm := matchChunk_fuel (scanChunk pattern).2.1 []
      cases hmc : matchChunk (scanChunk pattern).2.1 [] with
      | error e =>
        simp only
        intro e2 h
        simp only [Except.error.injEq] at h
        rw [← h]
        exact hm e hmc
      | ok v =>
        simp only
        exact ih _ (by omega)

open path in
theorem MatchLoop_fuel (fuel : Nat) (pattern name : GoString) (hfuel : pattern.length ≤ fuel) :
    ∀ e, MatchLoop fuel pattern name = .error e → e = MatchError.ErrBadPattern := by
  induction fuel generalizing pattern name with
  | zero =>
    have hc : pattern = [] := List.length_eq_zero.mp (Nat.le_zero.mp hfuel)
    subst hc
    simp [MatchLoop]
  | succ k ih =>
    unfold MatchLoop
    split
    · simp
    · rename_i hne
      have hne2 : pattern ≠ [] := by
        intro h
        apply hne
        simp [h]
      have hlt := scanChunk_rest_length pattern hne2
      have hrest : (scanChunk pattern).2.2.length ≤ k := by omega
      simp only
      split
      · simp
      · have hm := matchChunk_fuel (scanChunk pattern).2.1 name
        cases hmc : matchChunk (scanChunk pattern).2.1 name with
        | error e =>
          simp only
          intro e2 h
          simp only [Except.error.injEq] at h
          rw [← h]
          exact hm e hmc
        | ok direct =>
          simp only
          split
          · exact ih _ _ hrest
          · have hs := starSearch_fuel (scanChunk pattern).2.1
              (decide ((scanChunk pattern).2.2 = [])) name
            split
            · rename_i e hse
              intro e2 h
              simp only [Except.error.injEq] at h
              rw [← h]
              split at hse
              · exact hs e hse
              · simp at hse
            · exact ih _ _ hrest
            · have hcr := checkRest_fuel (scanChunk pattern).2.2.length (scanChunk pattern).2.2
                (Nat.le_refl _)
              split
              · rename_i e hce
                intro e2 h
                simp only [Except.error.injEq] at h
                rw [← h]
                exact hcr e hce
              · simp

/-- The model of `path.Match` never runs out of fuel: its only error is
`ErrBadPattern`, and otherwise it answers. -/
theorem Match_total (pattern name : GoString) :
    path.Match pattern name = .error path.MatchError.ErrBadPattern ∨
    ∃ b, path.Match pattern name = .ok b := by
  cases h : path.Match pattern name with
  | error e =>
    left
    rw [MatchLoop_fuel pattern.length pattern name (Nat.le_refl _) e h]
  | ok b => exact Or.inr ⟨b, rfl⟩

/-! ## The cases of `runner_test.go` -/

/-- The model gives the results that `TestMatchIdentity`, `TestShouldInclude`
and (on the strings the driver rejects or that have no `@`) `TestMaskDSN`
expect. The tests call `matchIdentity`, `shouldInclude` and `maskDSN`, names
that `runner.go` does not define; their expectations are read here against
`MatchIdentity`, `ShouldInclude` and `MaskDSN`. -/
theorem runner_test_cases :
    MatchIdentity asciiTables "mysql.sys".toList "localhost".toList "mysql.*".toList = true ∧
    MatchIdentity asciiTables "app".toList "10.0.5.3".toList "app@10.0.%".toList = true ∧
    MatchIdentity asciiTables "app".toList "10.1.1.1".toList "app@10.0.%".toList = false ∧
    MatchIdentity asciiTables "root".toList "anywhere".toList "root".toList = true ∧
    ShouldInclude asciiTables "app".toList "10.0.0.1".toList [] [] = true ∧
    ShouldInclude asciiTables "app".toList "10.0.1.2".toList ["app@10.0.%".toList] [] = true ∧
    ShouldInclude asciiTables "app".toList "10.1.1.1".toList ["app@10.0.%".toList] [] = false ∧
    ShouldInclude asciiTables "mysql.sys".toList "localhost".toList [] ["mysql.*".toList]
      = false ∧
    MaskDSN noSlashDriver "user:secret@localhost".toList = "user:****@localhost".toList ∧
    MaskDSN noSlashDriver "localhost".toList = "localhost".toList := by
  decide

/-! ## Reconciliation of one user (`Runner.applyUser`) -/

theorem execUntilFailure_issued {σ : Type} (T : TargetDB σ) (stmts : List GoString) (c : Conn σ) :
    ∃ k, k ≤ stmts.length ∧ (execUntilFailure T c stmts).1.issued = c.issued ++ stmts.take k ∧
      ((execUntilFailure T c stmts).2 = true → k = stmts.length) := by
  induction stmts generalizing c with
  | nil => exact ⟨0, by simp [execUntilFailure]⟩
  | cons s ss ih =>
    cases h : (T.exec c.state s).2 with
    | some e =>
      refine ⟨1, by simp, ?_, ?_⟩
      · simp [execUntilFailure, ExecContext, h]
      · simp [execUntilFailure, ExecContext, h]
    | none =>
      obtain ⟨k, hk, hi, hok⟩ := ih ⟨(T.exec c.state s).1, c.issued ++ [s]⟩
      refine ⟨k + 1, by simpa using hk, ?_, ?_⟩
      · simpa [execUntilFailure, ExecContext, h] using hi
      · simpa [execUntilFailure, ExecContext, h] using hok

theorem grantLoop_eq_execUntilFailure {σ : Type} (T : TargetDB σ) (grants : List GoString)
    (c : Conn σ) :
    (grantLoop T c grants).1 = (execUntilFailure T c grants).1 ∧
      ((grantLoop T c grants).2 = none ↔ (execUntilFailure T c grants).2 = true) := by
  induction grants generalizing c with
  | nil => simp [grantLoop, execUntilFailure]
  | cons g gs ih =>
    cases h : (T.exec c.state g).2 with
    | some e => simp [grantLoop, execUntilFailure, applyGrant, ExecContext, h]
    | none => simpa [grantLoop, execUntilFailure, applyGrant, ExecContext, h] using ih _

/-- C1. In a dry run `applyUser` passes no statement to `ExecContext` and
leaves the state of the target as it was, whatever the user record, the
target and the flags `dropMissing` and `forceOverwrite`. -/
theorem applyUser_dryRun_no_mutation {σ : Type} (T : TargetDB σ) (r : Runner) (c : Conn σ)
    (user : UserRecord) (hdry : r.DryRun = true) :
    (applyUser T r c user).2.issued = c.issued ∧ (applyUser T r c user).2.state = c.state := by
  unfold applyUser
  cases userExists T c user.User user.Host with
  | error err => simp
  | ok e => simp [hdry]

theorem applyUser_dryRun_no_mutation_witness :
    (policyRunner true true true).DryRun = true ∧
    (applyUser (scriptedDB (.ok 1) (fun _ => false)) (policyRunner true true true)
        ⟨["CREATE USER old".toList], []⟩ sampleUser).2.issued = [] ∧
    (applyUser (scriptedDB (.ok 1) (fun _ => false)) (policyRunner true true true)
        ⟨["CREATE USER old".toList], []⟩ sampleUser).2.state = ["CREATE USER old".toList] :=
  ⟨rfl, applyUser_dryRun_no_mutation _ (policyRunner true true true) ⟨_, []⟩ sampleUser rfl⟩

/-- C2, as the code has it: in a dry run, whatever the user record and the
flags `dropMissing` and `forceOverwrite`, `applyUser` reports the status
`planned` whenever the existence query succeeds (account present or absent),
and whenever the existence query fails it reports the status `error` with the
error text `check exists: ` followed by the error of the query. -/
theorem applyUser_dryRun_result {σ : Type} (T : TargetDB σ) (r : Runner) (c : Conn σ)
    (user : UserRecord) (hdry : r.DryRun = true) :
    (∀ e, userExists T c user.User user.Host = .ok e →
      (applyUser T r c user).1 = ⟨user.User, user.Host, "planned".toList, []⟩) ∧
    (∀ err, userExists T c user.User user.Host = .error err →
      (applyUser T r c user).1 =
        ⟨user.User, user.Host, "error".toList, "check exists: ".toList ++ err⟩) := by
  constructor
  · intro e hq
    unfold applyUser
    rw [hq]
    simp [hdry]
  · intro err hq
    unfold applyUser
    rw [hq]

theorem applyUser_dryRun_result_witness :
    (policyRunner true false true).DryRun = true ∧
    (applyUser (scriptedDB (.ok 1) (fun _ => false)) (policyRunner true false true) ⟨[], []⟩
      sampleUser).1.Status = "planned".toList ∧
    (applyUser (scriptedDB (.error "access denied".toList) (fun _ => false))
      (policyRunner true false true) ⟨[], []⟩ sampleUser).1 =
      ⟨"app".toList, "localhost".toList, "error".toList,
        "check exists: access denied".toList⟩ :=
  ⟨rfl,
   congrArg UserResult.Status
     ((applyUser_dryRun_result (scriptedDB (.ok 1) (fun _ => false))
       (policyRunner true false true) ⟨[], []⟩ sampleUser rfl).1 true rfl),
   (applyUser_dryRun_result (scriptedDB (.error "access denied".toList) (fun _ => false))
     (policyRunner true false true) ⟨[], []⟩ sampleUser rfl).2 "access denied".toList rfl⟩

/-- C2, the claim as stated fails: in a dry run on a target whose existence
query fails, `applyUser` reports the status `error`, not `planned`. -/
theorem applyUser_dryRun_query_error :
    (policyRunner true false false).DryRun = true ∧
    (applyUser (scriptedDB (.error "server has gone away".toList) (fun _ => false))
      (policyRunner true false false) ⟨[], []⟩ sampleUser).1 =
      ⟨"app".toList, "localhost".toList, "error".toList,
        "check exists: server has gone away".toList⟩ := by
  decide

theorem execUntilFailure_cons_ok {σ : Type} (T : TargetDB σ) (c : Conn σ) (stmt : GoString)
    (stmts : List GoString) (h : (T.exec c.state stmt).2 = none) :
    execUntilFailure T c (stmt :: stmts) =
      execUntilFailure T ⟨(T.exec c.state stmt).1, c.issued ++ [stmt]⟩ stmts := by
  simp [execUntilFailure, ExecContext, h]

theorem applyUserGrants_eq {σ : Type} (T : TargetDB σ) (out : UserResult) (identity : GoString)
    (c : Conn σ) (grants : List GoString) :
    (applyUserGrants T out identity c grants).2 = (execUntilFailure T c grants).1 ∧
    (applyUserGrants T out identity c grants).1.Status =
      (if (execUntilFailure T c grants).2 then "applied".toList else "error".toList) := by
  have h := grantLoop_eq_execUntilFailure T grants c
  unfold applyUserGrants
  rcases hgl : grantLoop T c grants with ⟨c3, _ | err⟩
  · rw [hgl] at h
    have h2 : (execUntilFailure T c grants).2 = true := h.2.mp rfl
    simp [← h.1, h2]
  · rw [hgl] at h
    have h2 : (execUntilFailure T c grants).2 = false := by
      cases hx : (execUntilFailure T c grants).2
      · rfl
      · have := h.2.mpr hx
        simp at this
    simp [← h.1, h2]

theorem applyUserCreate_eq {σ : Type} (T : TargetDB σ) (out : UserResult) (identity : GoString)
    (exists1 : Bool) (c : Conn σ) (user : UserRecord) :
    (applyUserCreate T out identity exists1 c user).2 =
      (execUntilFailure T c
        ((if exists1 then [] else [createUserStmt user]) ++ user.Grants)).1 ∧
    (applyUserCreate T out identity exists1 c user).1.Status =
      (if (execUntilFailure T c
        ((if exists1 then [] else [createUserStmt user]) ++ user.Grants)).2
       then "applied".toList else "error".toList) := by
  unfold applyUserCreate
  cases exists1 with
  | true => simpa using applyUserGrants_eq T out identity c user.Grants
  | false =>
    cases h : (T.exec c.state (createUserStmt user)).2 with
    | some err => simp [createUser, execUntilFailure, ExecContext, h]
    | none =>
      simpa [createUser, execUntilFailure, ExecContext, h] using
        applyUserGrants_eq T out identity _ user.Grants

/-- C4. Outside a dry run, when the existence check answers `e`, `applyUser`
issues the planned statements (drop when the account exists and `dropMissing`
or `forceOverwrite` is set, create when it did not exist or was just dropped,
then the grants in recorded order) one after the other and stops after the
first that fails: the connection it leaves is the one left by running the plan
up to the first failure, the statements logged are a leading part of the plan
(all of it when the status is `applied`), and the status is `applied` when no
statement failed and `error` otherwise. -/
theorem applyUser_issues_plan {σ : Type} (T : TargetDB σ) (r : Runner) (c : Conn σ)
    (user : UserRecord) (e : Bool) (hdry : r.DryRun = false)
    (hq : userExists T c user.User user.Host = .ok e) :
    (applyUser T r c user).2 = (execUntilFailure T c (plannedStatements r e user)).1 ∧
    (applyUser T r c user).1.Status =
      (if (execUntilFailure T c (plannedStatements r e user)).2 then "applied".toList
       else "error".toList) ∧
    ∃ k, k ≤ (plannedStatements r e user).length ∧
      (applyUser T r c user).2.issued = c.issued ++ (plannedStatements r e user).take k ∧
      ((applyUser T r c user).1.Status = "applied".toList →
        k = (plannedStatements r e user).length) := by
  have key : (applyUser T r c user).2 = (execUntilFailure T c (plannedStatements r e user)).1 ∧
      (applyUser T r c user).1.Status =
        (if (execUntilFailure T c (plannedStatements r e user)).2 then "applied".toList
         else "error".toList) := by
    unfold applyUser
    rw [hq]
    simp only [hdry]
    cases e <;> cases hd : (r.DropMissing || r.ForceOverwrite)
    · simpa [plannedStatements, hd] using applyUserCreate_eq T _ _ false c user
    · simpa [plannedStatements, hd] using applyUserCreate_eq T _ _ false c user
    · simpa [plannedStatements, hd] using applyUserCreate_eq T _ _ true c user
    · cases h : (T.exec c.state (dropUserStmt user)).2 with
      | some err => simp [plannedStatements, hd, dropUser, execUntilFailure, ExecContext, h]
      | none =>
        have hc := applyUserCreate_eq T ⟨user.User, user.Host, [], []⟩
          (user.User ++ "@".toList ++ user.Host) false
          ⟨(T.exec c.state (dropUserStmt user)).1, c.issued ++ [dropUserStmt user]⟩ user
        simp only [plannedStatements, hd, dropUser, ExecContext, h, Bool.and_self, if_true,
          Bool.not_true, Bool.or_true, Bool.false_or, List.singleton_append, List.cons_append,
          List.nil_append, execUntilFailure_cons_ok T _ _ _ h]
        simpa using hc
  obtain ⟨k, hk, hi, hok⟩ := execUntilFailure_issued T (plannedStatements r e user) c
  refine ⟨key.1, key.2, k, hk, by rw [key.1]; exact hi, ?_⟩
  intro hs
  apply hok
  rw [key.2] at hs
  by_contra hne
  simp [hne] at hs

theorem applyUser_issues_plan_witness :
    (policyRunner false false true).DryRun = false ∧
    userExists (scriptedDB (.ok 1) (fun _ => false)) ⟨[], []⟩ sampleUser.User sampleUser.Host
      = .ok true ∧
    (applyUser (scriptedDB (.ok 1) (fun _ => false)) (policyRunner false false true) ⟨[], []⟩
        sampleUser).2.issued =
      ["DROP USER IF EXISTS 'app'@'localhost'".toList,
       ("CREATE USER IF NOT EXISTS 'app'@'localhost' IDENTIFIED WITH " ++
        "'mysql_native_password' AS '*81F5E21E'").toList,
       "GRANT USAGE ON *.* TO app@localhost".toList] ∧
    (applyUser (scriptedDB (.ok 1) (fun _ => false)) (policyRunner false false true) ⟨[], []⟩
        sampleUser).1.Status = "applied".toList := by
  have h := applyUser_issues_plan (scriptedDB (.ok 1) (fun _ => false))
    (policyRunner false false true) ⟨[], []⟩ sampleUser true rfl rfl
  refine ⟨rfl, rfl, ?_, ?_⟩
  · rw [h.1]; decide
  · rw [h.2.1]; decide

/-! ## Include and exclude filters (`ShouldInclude`) -/

theorem anyMatch_eq_true_iff (U : UnicodeTables) (u h : GoString) (ps : List GoString) :
    anyMatch U u h ps = true ↔ ∃ p ∈ ps, MatchIdentity U u h p = true := by
  induction ps with
  | nil => simp [anyMatch]
  | cons p ps ih =>
    unfold anyMatch
    by_cases hp : MatchIdentity U u h p = true
    · simp [hp]
    · simp [hp, ih]

theorem anyMatch_eq_false_iff (U : UnicodeTables) (u h : GoString) (ps : List GoString) :
    anyMatch U u h ps = false ↔ ∀ p ∈ ps, MatchIdentity U u h p = false := by
  rw [← Bool.not_eq_true, anyMatch_eq_true_iff]
  simp

/-- C3. `ShouldInclude` is true exactly when no exclude pattern matches the
lower-cased identity and the include list is empty or one of its patterns
matches the lower-cased identity. In particular a match on an exclude pattern
gives false whatever the include list, and with both lists empty every
identity is included. -/
theorem ShouldInclude_iff (U : UnicodeTables) (user host : GoString)
    (includes excludes : List GoString) :
    (ShouldInclude U user host includes excludes = true ↔
      (∀ ex ∈ excludes,
        MatchIdentity U (strings.ToLower U user) (strings.ToLower U host) ex = false) ∧
      (includes = [] ∨ ∃ inc ∈ includes,
        MatchIdentity U (strings.ToLower U user) (strings.ToLower U host) inc = true)) ∧
    ((∃ ex ∈ excludes,
        MatchIdentity U (strings.ToLower U user) (strings.ToLower U host) ex = true) →
      ShouldInclude U user host includes excludes = false) ∧
    ShouldInclude U user host [] [] = true := by
  have hS : ShouldInclude U user host includes excludes =
      (!anyMatch U (strings.ToLower U user) (strings.ToLower U host) excludes &&
        (decide (includes = []) ||
          anyMatch U (strings.ToLower U user) (strings.ToLower U host) includes)) := by
    simp only [ShouldInclude]
    cases anyMatch U (strings.ToLower U user) (strings.ToLower U host) excludes <;>
      cases anyMatch U (strings.ToLower U user) (strings.ToLower U host) includes <;>
      cases includes <;> simp
  refine ⟨?_, ?_, ?_⟩
  · rw [hS]
    simp only [Bool.and_eq_true, Bool.not_eq_true', Bool.or_eq_true, decide_eq_true_eq,
      anyMatch_eq_false_iff, anyMatch_eq_true_iff]
  · intro hex
    rw [hS, (anyMatch_eq_true_iff U _ _ _).mpr hex]
    rfl
  · simp [ShouldInclude, anyMatch]

theorem ShouldInclude_iff_witness :
    ShouldInclude asciiTables "mysql.sys".toList "localhost".toList ["mysql.sys".toList]
      ["mysql.*".toList] = false ∧
    ShouldInclude asciiTables "App".toList "10.0.1.2".toList ["app@10.0.%".toList]
      ["mysql.*".toList] = true :=
  ⟨(ShouldInclude_iff asciiTables "mysql.sys".toList "localhost".toList ["mysql.sys".toList]
      ["mysql.*".toList]).2.1 ⟨"mysql.*".toList, List.mem_singleton.mpr rfl, by decide⟩,
   (ShouldInclude_iff asciiTables "App".toList "10.0.1.2".toList ["app@10.0.%".toList]
      ["mysql.*".toList]).1.mpr
      ⟨fun ex hex => by rw [List.mem_singleton.mp hex]; decide,
       Or.inr ⟨"app@10.0.%".toList, List.mem_singleton.mpr rfl, by decide⟩⟩⟩

/-! ## Quoting (`escape`) and the statements built with it -/

theorem replaceFrom_single_cons (a : Char) (new : GoString) (c : Char) (cs : GoString) :
    strings.replaceFrom [a] new 0 (c :: cs) =
      (if c = a then new else [c]) ++ strings.replaceFrom [a] new 0 cs := by
  by_cases h : c = a
  · subst h
    simp [strings.replaceFrom, List.isPrefixOf]
  · have h2 : ¬ a = c := fun e => h e.symm
    simp [strings.replaceFrom, List.isPrefixOf, h, h2]

theorem replaceFrom_single_nil (a : Char) (new : GoString) :
    strings.replaceFrom [a] new 0 [] = [] := by
  simp [strings.replaceFrom]

theorem replaceFrom_single_append (a : Char) (new : GoString) (xs ys : GoString) :
    strings.replaceFrom [a] new 0 (xs ++ ys) =
      strings.replaceFrom [a] new 0 xs ++ strings.replaceFrom [a] new 0 ys := by
  induction xs with
  | nil => simp [replaceFrom_single_nil]
  | cons x xs ih => simp [replaceFrom_single_cons, ih]

/-- The runes `escape` writes for one rune of its argument. -/
theorem escape_cons (c : Char) (cs : GoString) :
    escape (c :: cs) =
      (if c = Char.ofNat 92 then [Char.ofNat 92, Char.ofNat 92]
       else if c = Char.ofNat 39 then [Char.ofNat 39, Char.ofNat 39] else [c]) ++ escape cs := by
  simp only [escape, strings.ReplaceAll, replaceFrom_single_cons, replaceFrom_single_append]
  by_cases h1 : c = Char.ofNat 92
  · subst h1
    simp [replaceFrom_single_cons, replaceFrom_single_nil]
  · by_cases h2 : c = Char.ofNat 39
    · subst h2
      simp [replaceFrom_single_cons, replaceFrom_single_nil]
    · simp [h1, h2, replaceFrom_single_cons, replaceFrom_single_nil]

theorem escape_nil : escape [] = [] := by
  simp [escape, strings.ReplaceAll, strings.replaceFrom]

theorem decodeLiteral_escape (v : GoString) : decodeLiteral (escape v) = some v := by
  induction v with
  | nil => simp [escape_nil, decodeLiteral]
  | cons c cs ih =>
    rw [escape_cons]
    by_cases h1 : c = Char.ofNat 92
    · subst h1
      simp [decodeLiteral, ih]
    · by_cases h2 : c = Char.ofNat 39
      · subst h2
        simp [decodeLiteral, ih]
      · rw [if_neg h1, if_neg h2, List.singleton_append, decodeLiteral.eq_def]
        simp only [if_neg h1, if_neg h2, ih]
        rfl

theorem readLiteral_escape (v rest : GoString) (hrest : rest.head? ≠ some (Char.ofNat 39)) :
    readLiteral (escape v ++ Char.ofNat 39 :: rest) = some (v, rest) := by
  induction v with
  | nil =>
    cases rest with
    | nil => simp [escape_nil, readLiteral]
    | cons d ds =>
      have hd : d ≠ Char.ofNat 39 := by simpa using hrest
      simp [escape_nil, readLiteral, hd]
  | cons c cs ih =>
    rw [escape_cons]
    by_cases h1 : c = Char.ofNat 92
    · subst h1
      simp [readLiteral, ih]
    · by_cases h2 : c = Char.ofNat 39
      · subst h2
        simp [readLiteral, ih]
      · rw [if_neg h1, if_neg h2, List.singleton_append, List.cons_append, readLiteral.eq_def]
        simp only [if_neg h1, if_neg h2, ih]
        rfl

theorem takeWhile_until_quote (txt tail : GoString) (htxt : Char.ofNat 39 ∉ txt) :
    (txt ++ Char.ofNat 39 :: tail).takeWhile (fun x => decide (x ≠ Char.ofNat 39)) = txt ∧
    (txt ++ Char.ofNat 39 :: tail).dropWhile (fun x => decide (x ≠ Char.ofNat 39)) =
      Char.ofNat 39 :: tail := by
  induction txt with
  | nil => simp
  | cons x xs ih =>
    have hx : x ≠ Char.ofNat 39 := fun e => htxt (by rw [e]; exact List.mem_cons_self _ _)
    have hxs : Char.ofNat 39 ∉ xs := fun h => htxt (List.mem_cons_of_mem _ h)
    have := ih hxs
    simp only [List.cons_append, List.takeWhile_cons, List.dropWhile_cons, hx, ne_eq,
      not_false_eq_true, decide_True, if_true, this.1, this.2, and_self]

theorem readStatementLoop_nil (fuel : Nat) : readStatementLoop fuel [] = some [] := by
  cases fuel <;> rfl

/-- One round of the statement reader: a text without quote, then a quote, an
escaped value and a quote, is read as that text and the literal with that
value, and the reader goes on after the closing quote. -/
theorem readStatementLoop_literal (fuel : Nat) (txt v rest : GoString)
    (htxt : Char.ofNat 39 ∉ txt) (hrest : rest.head? ≠ some (Char.ofNat 39)) :
    readStatementLoop (fuel + 1) (txt ++ Char.ofNat 39 :: (escape v ++ Char.ofNat 39 :: rest)) =
      (readStatementLoop fuel rest).map
        (fun ps => (if txt = [] then [] else [StatementPiece.text txt]) ++
          StatementPiece.literal v :: ps) := by
  have htd := takeWhile_until_quote txt (escape v ++ Char.ofNat 39 :: rest) htxt
  have hlit := readLiteral_escape v rest hrest
  cases hs : txt ++ Char.ofNat 39 :: (escape v ++ Char.ofNat 39 :: rest) with
  | nil => simp at hs
  | cons c cs =>
    rw [hs] at htd
    simp only [readStatementLoop, htd.1, htd.2, hlit]

theorem length_literal_le (txt v rest : GoString) :
    rest.length + 2 ≤ (txt ++ Char.ofNat 39 :: (escape v ++ Char.ofNat 39 :: rest)).length := by
  simp only [List.length_append, List.length_cons]
  omega

theorem head_of_text (t tail : GoString) (ht : Char.ofNat 39 ∉ t) (hne : t ≠ []) :
    (t ++ tail).head? ≠ some (Char.ofNat 39) := by
  cases t with
  | nil => exact absurd rfl hne
  | cons x xs =>
    have hx : x ≠ Char.ofNat 39 := fun e => ht (by rw [e]; exact List.mem_cons_self _ _)
    simpa using hx

/-- A statement made of two quoted values: it is read as the two texts and
the two values. -/
theorem readStatement_two (t1 t2 a b : GoString) (h1 : Char.ofNat 39 ∉ t1)
    (h2 : Char.ofNat 39 ∉ t2) (hne1 : t1 ≠ []) (hne2 : t2 ≠ []) :
    readStatement (t1 ++ Char.ofNat 39 :: (escape a ++ Char.ofNat 39 ::
      (t2 ++ Char.ofNat 39 :: (escape b ++ Char.ofNat 39 :: [])))) =
      some [StatementPiece.text t1, StatementPiece.literal a,
        StatementPiece.text t2, StatementPiece.literal b] := by
  have hl1 := length_literal_le t1 a (t2 ++ Char.ofNat 39 :: (escape b ++ Char.ofNat 39 :: []))
  have hl2 := length_literal_le t2 b []
  obtain ⟨k, hk⟩ : ∃ k, (t1 ++ Char.ofNat 39 :: (escape a ++ Char.ofNat 39 ::
      (t2 ++ Char.ofNat 39 :: (escape b ++ Char.ofNat 39 :: [])))).length = k + 1 + 1 :=
    ⟨_, (Nat.sub_add_cancel (by omega : 2 ≤ _)).symm⟩
  unfold readStatement
  rw [hk, readStatementLoop_literal _ t1 a _ h1 (head_of_text t2 _ h2 hne2),
    readStatementLoop_literal _ t2 b [] h2 (by simp), readStatementLoop_nil]
  simp [hne1, hne2]

/-- A statement made of three quoted values, as above. -/
theorem readStatement_three (t1 t2 t3 a b c : GoString) (h1 : Char.ofNat 39 ∉ t1)
    (h2 : Char.ofNat 39 ∉ t2) (h3 : Char.ofNat 39 ∉ t3) (hne1 : t1 ≠ []) (hne2 : t2 ≠ [])
    (hne3 : t3 ≠ []) :
    readStatement (t1 ++ Char.ofNat 39 :: (escape a ++ Char.ofNat 39 ::
      (t2 ++ Char.ofNat 39 :: (escape b ++ Char.ofNat 39 ::
      (t3 ++ Char.ofNat 39 :: (escape c ++ Char.ofNat 39 :: [])))))) =
      some [StatementPiece.text t1, StatementPiece.literal a,
        StatementPiece.text t2, StatementPiece.literal b,
        StatementPiece.text t3, StatementPiece.literal c] := by
  have hl1 := length_literal_le t1 a (t2 ++ Char.ofNat 39 :: (escape b ++ Char.ofNat 39 ::
      (t3 ++ Char.ofNat 39 :: (escape c ++ Char.ofNat 39 :: []))))
  have hl2 := length_literal_le t2 b (t3 ++ Char.ofNat 39 :: (escape c ++ Char.ofNat 39 :: []))
  have hl3 := length_literal_le t3 c []
  obtain ⟨k, hk⟩ : ∃ k, (t1 ++ Char.ofNat 39 :: (escape a ++ Char.ofNat 39 ::
      (t2 ++ Char.ofNat 39 :: (escape b ++ Char.ofNat 39 ::
      (t3 ++ Char.ofNat 39 :: (escape c ++ Char.ofNat 39 :: [])))))).length = k + 1 + 1 + 1 :=
    ⟨_, (Nat.sub_add_cancel (by omega : 3 ≤ _)).symm⟩
  unfold readStatement
  rw [hk, readStatementLoop_literal _ t1 a _ h1 (head_of_text t2 _ h2 hne2),
    readStatementLoop_literal _ t2 b _ h2 (head_of_text t3 _ h3 hne3),
    readStatementLoop_literal _ t3 c [] h3 (by simp), readStatementLoop_nil]
  simp [hne1, hne2, hne3]

/-- A statement made of four quoted values, as above. -/
theorem readStatement_four (t1 t2 t3 t4 a b c d : GoString) (h1 : Char.ofNat 39 ∉ t1)
    (h2 : Char.ofNat 39 ∉ t2) (h3 : Char.ofNat 39 ∉ t3) (h4 : Char.ofNat 39 ∉ t4)
    (hne1 : t1 ≠ []) (hne2 : t2 ≠ []) (hne3 : t3 ≠ []) (hne4 : t4 ≠ []) :
    readStatement (t1 ++ Char.ofNat 39 :: (escape a ++ Char.ofNat 39 ::
      (t2 ++ Char.ofNat 39 :: (escape b ++ Char.ofNat 39 ::
      (t3 ++ Char.ofNat 39 :: (escape c ++ Char.ofNat 39 ::
      (t4 ++ Char.ofNat 39 :: (escape d ++ Char.ofNat 39 :: [])))))))) =
      some [StatementPiece.text t1, StatementPiece.literal a,
        StatementPiece.text t2, StatementPiece.literal b,
        StatementPiece.text t3, StatementPiece.literal c,
        StatementPiece.text t4, StatementPiece.literal d] := by
  have hl1 := length_literal_le t1 a (t2 ++ Char.ofNat 39 :: (escape b ++ Char.ofNat 39 ::
      (t3 ++ Char.ofNat 39 :: (escape c ++ Char.ofNat 39 ::
      (t4 ++ Char.ofNat 39 :: (escape d ++ Char.ofNat 39 :: []))))))
  have hl2 := length_literal_le t2 b (t3 ++ Char.ofNat 39 :: (escape c ++ Char.ofNat 39 ::
      (t4 ++ Char.ofNat 39 :: (escape d ++ Char.ofNat 39 :: []))))
  have hl3 := length_literal_le t3 c (t4 ++ Char.ofNat 39 :: (escape d ++ Char.ofNat 39 :: []))
  have hl4 := length_literal_le t4 d []
  obtain ⟨k, hk⟩ : ∃ k, (t1 ++ Char.ofNat 39 :: (escape a ++ Char.ofNat 39 ::
      (t2 ++ Char.ofNat 39 :: (escape b ++ Char.ofNat 39 ::
      (t3 ++ Char.ofNat 39 :: (escape c ++ Char.ofNat 39 ::
      (t4 ++ Char.ofNat 39 :: (escape d ++ Char.ofNat 39 :: [])))))))).length =
        k + 1 + 1 + 1 + 1 :=
    ⟨_, (Nat.sub_add_cancel (by omega : 4 ≤ _)).symm⟩
  unfold readStatement
  rw [hk, readStatementLoop_literal _ t1 a _ h1 (head_of_text t2 _ h2 hne2),
    readStatementLoop_literal _ t2 b _ h2 (head_of_text t3 _ h3 hne3),
    readStatementLoop_literal _ t3 c _ h3 (head_of_text t4 _ h4 hne4),
    readStatementLoop_literal _ t4 d [] h4 (by simp), readStatementLoop_nil]
  simp [hne1, hne2, hne3, hne4]

theorem dropUserStmt_read (user : UserRecord) :
    readStatement (dropUserStmt user) =
      some [StatementPiece.text "DROP USER IF EXISTS ".toList, StatementPiece.literal user.User,
        StatementPiece.text "@".toList, StatementPiece.literal user.Host] := by
  have hform : dropUserStmt user =
      "DROP USER IF EXISTS ".toList ++ Char.ofNat 39 :: (escape user.User ++ Char.ofNat 39 ::
        ("@".toList ++ Char.ofNat 39 :: (escape user.Host ++ Char.ofNat 39 :: []))) := by
    simp [dropUserStmt, String.toList]
  rw [hform]
  exact readStatement_two _ _ _ _ (by decide) (by decide) (by decide) (by decide)

theorem fetchGrantsStmt_read (user host : GoString) :
    readStatement (fetchGrantsStmt user host) =
      some [StatementPiece.text "SHOW GRANTS FOR ".toList, StatementPiece.literal user,
        StatementPiece.text "@".toList, StatementPiece.literal host] := by
  have hform : fetchGrantsStmt user host =
      "SHOW GRANTS FOR ".toList ++ Char.ofNat 39 :: (escape user ++ Char.ofNat 39 ::
        ("@".toList ++ Char.ofNat 39 :: (escape host ++ Char.ofNat 39 :: []))) := by
    simp [fetchGrantsStmt, String.toList]
  rw [hform]
  exact readStatement_two _ _ _ _ (by decide) (by decide) (by decide) (by decide)

theorem createUserStmt_read (user : UserRecord) :
    readStatement (createUserStmt user) =
      some ([StatementPiece.text "CREATE USER IF NOT EXISTS ".toList,
          StatementPiece.literal user.User, StatementPiece.text "@".toList,
          StatementPiece.literal user.Host] ++
        (if user.Plugin ≠ [] ∧ user.AuthString ≠ [] then
          [StatementPiece.text " IDENTIFIED WITH ".toList, StatementPiece.literal user.Plugin,
            StatementPiece.text " AS ".toList, StatementPiece.literal user.AuthString]
         else if user.AuthString ≠ [] then
          [StatementPiece.text " IDENTIFIED BY PASSWORD ".toList,
            StatementPiece.literal user.AuthString]
         else [])) := by
  by_cases hauth : user.AuthString = []
  · have hform : createUserStmt user =
        "CREATE USER IF NOT EXISTS ".toList ++ Char.ofNat 39 ::
          (escape user.User ++ Char.ofNat 39 ::
          ("@".toList ++ Char.ofNat 39 :: (escape user.Host ++ Char.ofNat 39 :: []))) := by
      simp [createUserStmt, hauth, String.toList]
    rw [hform, readStatement_two _ _ _ _ (by decide) (by decide) (by decide) (by decide)]
    simp [hauth]
  · by_cases hplug : user.Plugin = []
    · have hform : createUserStmt user =
          "CREATE USER IF NOT EXISTS ".toList ++ Char.ofNat 39 ::
            (escape user.User ++ Char.ofNat 39 ::
            ("@".toList ++ Char.ofNat 39 :: (escape user.Host ++ Char.ofNat 39 ::
            (" IDENTIFIED BY PASSWORD ".toList ++ Char.ofNat 39 ::
              (escape user.AuthString ++ Char.ofNat 39 :: []))))) := by
        simp [createUserStmt, hauth, hplug, String.toList]
      rw [hform, readStatement_three _ _ _ _ _ _ (by decide) (by decide) (by decide)
        (by decide) (by decide) (by decide)]
      simp [hauth, hplug]
    · have hform : createUserStmt user =
          "CREATE USER IF NOT EXISTS ".toList ++ Char.ofNat 39 ::
            (escape user.User ++ Char.ofNat 39 ::
            ("@".toList ++ Char.ofNat 39 :: (escape user.Host ++ Char.ofNat 39 ::
            (" IDENTIFIED WITH ".toList ++ Char.ofNat 39 ::
              (escape user.Plugin ++ Char.ofNat 39 ::
            (" AS ".toList ++ Char.ofNat 39 ::
              (escape user.AuthString ++ Char.ofNat 39 :: []))))))) := by
        simp [createUserStmt, hauth, hplug, String.toList]
      rw [hform, readStatement_four _ _ _ _ _ _ _ _ (by decide) (by decide) (by decide)
        (by decide) (by decide) (by decide) (by decide) (by decide)]
      simp [hauth, hplug]

/-- C6. For every string `v`, `escape v` read as the body of a single-quoted
MySQL literal is consumed whole, without an unpaired quote or a dangling
backslash, and denotes exactly `v`; a literal opened before `escape v` and
closed by the quote after it ends at that quote, with `v` as its value,
whatever follows (the text after a closing quote does not start with a quote).
Hence in the statement texts built by `dropUser`, `createUser` and
`fetchGrants`, read by the same rules, every literal is closed, the literals
are exactly the user, host, plugin and auth string as given, and the text
between them is the fixed text of the statement: no value ends its literal
early. -/
theorem escape_literal_safe (v rest : GoString) (user : UserRecord) (u h : GoString)
    (hrest : rest.head? ≠ some (Char.ofNat 39)) :
    decodeLiteral (escape v) = some v ∧
    readLiteral (escape v ++ Char.ofNat 39 :: rest) = some (v, rest) ∧
    readStatement (dropUserStmt user) =
      some [StatementPiece.text "DROP USER IF EXISTS ".toList, StatementPiece.literal user.User,
        StatementPiece.text "@".toList, StatementPiece.literal user.Host] ∧
    readStatement (createUserStmt user) =
      some ([StatementPiece.text "CREATE USER IF NOT EXISTS ".toList,
          StatementPiece.literal user.User, StatementPiece.text "@".toList,
          StatementPiece.literal user.Host] ++
        (if user.Plugin ≠ [] ∧ user.AuthString ≠ [] then
          [StatementPiece.text " IDENTIFIED WITH ".toList, StatementPiece.literal user.Plugin,
            StatementPiece.text " AS ".toList, StatementPiece.literal user.AuthString]
         else if user.AuthString ≠ [] then
          [StatementPiece.text " IDENTIFIED BY PASSWORD ".toList,
            StatementPiece.literal user.AuthString]
         else [])) ∧
    readStatement (fetchGrantsStmt u h) =
      some [StatementPiece.text "SHOW GRANTS FOR ".toList, StatementPiece.literal u,
        StatementPiece.text "@".toList, StatementPiece.literal h] :=
  ⟨decodeLiteral_escape v, readLiteral_escape v rest hrest, dropUserStmt_read user,
    createUserStmt_read user, fetchGrantsStmt_read u h⟩

theorem escape_literal_safe_witness :
    ("@'%'".toList).head? ≠ some (Char.ofNat 39) ∧
    decodeLiteral (escape hostileUser.User) = some hostileUser.User ∧
    readLiteral (escape hostileUser.User ++ Char.ofNat 39 :: "@'%'".toList) =
      some (hostileUser.User, "@'%'".toList) ∧
    dropUserStmt hostileUser = "DROP USER IF EXISTS 'o''brien\\\\'' OR ''1''=''1'@'%'".toList ∧
    readStatement (dropUserStmt hostileUser) =
      some [StatementPiece.text "DROP USER IF EXISTS ".toList,
        StatementPiece.literal "o'brien\\' OR '1'='1".toList,
        StatementPiece.text "@".toList, StatementPiece.literal "%".toList] :=
  ⟨by decide,
   (escape_literal_safe hostileUser.User "@'%'".toList hostileUser hostileUser.User
      hostileUser.Host (by decide)).1,
   (escape_literal_safe hostileUser.User "@'%'".toList hostileUser hostileUser.User
      hostileUser.Host (by decide)).2.1,
   by decide,
   (escape_literal_safe hostileUser.User "@'%'".toList hostileUser hostileUser.User
      hostileUser.Host (by decide)).2.2.1⟩

/-- With an auth string the statement ends in a credential clause that carries
the escaped auth string, and with a plugin as well the clause names the
escaped plugin. -/
theorem createUserStmt_carries_auth (user : UserRecord) (hauth : user.AuthString ≠ []) :
    (user.Plugin ≠ [] →
      (" IDENTIFIED WITH '".toList ++ escape user.Plugin ++ "' AS '".toList ++
        escape user.AuthString ++ "'".toList) <:+ createUserStmt user) ∧
    (user.Plugin = [] →
      (" IDENTIFIED BY PASSWORD '".toList ++ escape user.AuthString ++ "'".toList)
        <:+ createUserStmt user) := by
  constructor
  · intro hp
    simp only [createUserStmt, hp, hauth, ne_eq, not_false_eq_true, and_self, if_true]
    exact ⟨"CREATE USER IF NOT EXISTS '".toList ++ escape user.User ++ "'@'".toList ++
      escape user.Host ++ "'".toList, by simp only [List.append_assoc]⟩
  · intro hp
    simp only [createUserStmt, hp, hauth, ne_eq, not_true_eq_false, false_and, if_false,
      not_false_eq_true, if_true]
    exact ⟨"CREATE USER IF NOT EXISTS '".toList ++ escape user.User ++ "'@'".toList ++
      escape user.Host ++ "'".toList, by simp only [List.append_assoc]⟩

/-- Without an auth string the statement has no credential clause, whatever
the plugin. -/
theorem createUserStmt_without_auth (user : UserRecord) (hauth : user.AuthString = []) :
    createUserStmt user =
      "CREATE USER IF NOT EXISTS '".toList ++ escape user.User ++ "'@'".toList ++
        escape user.Host ++ "'".toList := by
  simp [createUserStmt, hauth]

/-- C5, the failing input: for a record with the plugin `auth_socket` and an
empty auth string, `createUser` builds a statement with no `IDENTIFIED WITH`
clause; the plugin of the source is not propagated. -/
theorem createUserStmt_plugin_dropped :
    createUserStmt ⟨"app".toList, "localhost".toList, "auth_socket".toList, [], [],
      "app@localhost".toList⟩ = "CREATE USER IF NOT EXISTS 'app'@'localhost'".toList := by
  decide

/-! ## Redaction of connection strings (`MaskDSN`) -/

theorem Index_single_append (c : Char) (a b : GoString) (hc : c ∉ a) :
    strings.Index (a ++ c :: b) [c] = some a.length := by
  induction a with
  | nil => simp [strings.Index, List.isPrefixOf]
  | cons x xs ih =>
    have hx : ¬ c = x := fun e => hc (by simp [e])
    have hxs : c ∉ xs := fun h => hc (by simp [h])
    simp [strings.Index, List.isPrefixOf, hx, ih hxs]

/-- C7, as the code has it: for a user name without `:` and `@`, a secret
without `@` and any remainder, when the driver rejects `u:s@r` the result of
`MaskDSN` is `u:****@r`. -/
theorem MaskDSN_fallback {Cfg : Type} (D : DSNDriver Cfg) (u s r : GoString)
    (hu1 : ':' ∉ u) (hu2 : '@' ∉ u) (hs : '@' ∉ s)
    (hparse : D.ParseDSN (u ++ ":".toList ++ s ++ "@".toList ++ r) = none) :
    MaskDSN D (u ++ ":".toList ++ s ++ "@".toList ++ r) = u ++ ":****@".toList ++ r := by
  have hat : '@' ∉ u ++ ':' :: s := by
    simp only [List.mem_append, List.mem_cons, not_or]
    exact ⟨hu2, by decide, hs⟩
  have e1 : u ++ ":".toList ++ s ++ "@".toList ++ r = (u ++ ':' :: s) ++ '@' :: r := by
    simp [String.toList]
  have i1 : strings.Index ((u ++ ':' :: s) ++ '@' :: r) "@".toList = some (u ++ ':' :: s).length :=
    Index_single_append '@' _ r hat
  have i2 : strings.Index (u ++ ':' :: s) ":".toList = some u.length :=
    Index_single_append ':' u s hu1
  unfold MaskDSN
  rw [hparse]
  simp only [e1, i1, List.take_left', List.drop_left', i2]
  simp [String.toList]

theorem MaskDSN_fallback_witness :
    ':' ∉ "user".toList ∧ '@' ∉ "user".toList ∧ '@' ∉ "se:cret".toList ∧
    noSlashDriver.ParseDSN ("user".toList ++ ":".toList ++ "se:cret".toList ++ "@".toList ++
      "localhost".toList) = none ∧
    MaskDSN noSlashDriver ("user".toList ++ ":".toList ++ "se:cret".toList ++ "@".toList ++
      "localhost".toList) = "user".toList ++ ":****@".toList ++ "localhost".toList :=
  ⟨by decide, by decide, by decide, by decide,
    MaskDSN_fallback noSlashDriver _ _ _ (by decide) (by decide) (by decide) (by decide)⟩

/-- C7, the claim as stated fails: the DSN `user:p@ss@localhost` is rejected
by the driver, and `MaskDSN` cuts at the first `@`, inside the secret; the
result is `user:****@ss@localhost`, which keeps the tail of the secret. -/
theorem MaskDSN_secret_with_at :
    noSlashDriver.ParseDSN "user:p@ss@localhost".toList = none ∧
    MaskDSN noSlashDriver "user:p@ss@localhost".toList = "user:****@ss@localhost".toList ∧
    MaskDSN noSlashDriver "user:p@ss@localhost".toList ≠ "user:****@localhost".toList := by
  decide

/-! ## Glob matching (`matchGlob`, `MatchIdentity`) -/

theorem Match_nil (value : GoString) : path.Match [] value = .ok value.isEmpty := by
  simp [path.Match, path.MatchLoop]

theorem Match_star (value : GoString) :
    path.Match "*".toList value = .ok (value.all (fun c => c ≠ '/')) := by
  simp [path.Match, path.MatchLoop, path.scanChunk, path.scanEnd, String.toList]

/-- `matchGlob` with an empty normalised pattern is false; with a normalised
pattern that `path.Match` rejects it is the comparison of that pattern with the
value. -/
theorem matchGlob_rejected (value pattern : GoString) :
    (normalizePattern pattern = [] → matchGlob value pattern = false) ∧
    (path.Match (normalizePattern pattern) value = .error path.MatchError.ErrBadPattern →
      matchGlob value pattern = decide (normalizePattern pattern = value)) := by
  constructor
  · intro h
    simp [matchGlob, h]
  · intro h
    unfold matchGlob
    by_cases h0 : normalizePattern pattern = []
    · rw [h0, Match_nil] at h
      simp at h
    · by_cases h1 : normalizePattern pattern = "*".toList
      · rw [h1, Match_star] at h
        simp at h
      · have h2 : ¬ normalizePattern pattern = ['*'] := h1
        simp only [h0, h1, h, if_false]
        by_cases hv : normalizePattern pattern = value <;> simp [hv]

/-- C8, as the code has it: an empty glob pattern never matches, and a glob
pattern that the engine rejects with a bad-pattern error is compared
literally: `matchGlob` is then true exactly when the value equals the
normalised pattern. So `MatchIdentity` is false when the user segment of the
pattern normalises to the empty pattern, and when the user segment is
rejected it can be true only for the user equal to the normalised segment. -/
theorem matchGlob_bad_pattern (U : UnicodeTables) (value pattern user host p : GoString) :
    (normalizePattern pattern = [] → matchGlob value pattern = false) ∧
    (path.Match (normalizePattern pattern) value = .error path.MatchError.ErrBadPattern →
      (matchGlob value pattern = true ↔ value = normalizePattern pattern)) ∧
    (normalizePattern (splitPattern (strings.TrimSpace U (strings.ToLower U p))).1 = [] →
      MatchIdentity U user host p = false) ∧
    (path.Match (normalizePattern (splitPattern (strings.TrimSpace U (strings.ToLower U p))).1)
        user = .error path.MatchError.ErrBadPattern →
      MatchIdentity U user host p = true →
      user = normalizePattern (splitPattern (strings.TrimSpace U (strings.ToLower U p))).1) := by
  refine ⟨(matchGlob_rejected value pattern).1, ?_, ?_, ?_⟩
  · intro h
    rw [(matchGlob_rejected value pattern).2 h]
    simp [eq_comm]
  · intro h
    have hg := (matchGlob_rejected user
      (splitPattern (strings.TrimSpace U (strings.ToLower U p))).1).1 h
    simp [MatchIdentity, hg]
  · intro h hm
    have hg := (matchGlob_rejected user
      (splitPattern (strings.TrimSpace U (strings.ToLower U p))).1).2 h
    by_contra hne
    have hf : matchGlob user (splitPattern (strings.TrimSpace U (strings.ToLower U p))).1
        = false := by
      rw [hg]
      simp [eq_comm, hne]
    simp [MatchIdentity, hf] at hm

theorem matchGlob_bad_pattern_witness :
    matchGlob "[a".toList "".toList = false ∧
    (matchGlob "[a".toList "[a".toList = true ↔ "[a".toList = normalizePattern "[a".toList) ∧
    MatchIdentity asciiTables "root".toList "localhost".toList "@localhost".toList = false :=
  ⟨(matchGlob_bad_pattern asciiTables "[a".toList "".toList [] [] []).1 (by decide),
   (matchGlob_bad_pattern asciiTables "[a".toList "[a".toList [] [] []).2.1 rfl,
   (matchGlob_bad_pattern asciiTables [] [] "root".toList "localhost".toList
      "@localhost".toList).2.2.1 (by decide)⟩

/-- C8, the claim as stated fails: the pattern `[` is rejected by the glob
engine with a bad-pattern error, and yet `matchGlob` and `MatchIdentity`
match the value `[` against it. -/
theorem matchGlob_bad_pattern_matches :
    path.Match (normalizePattern "[".toList) "[".toList = .error path.MatchError.ErrBadPattern ∧
    matchGlob "[".toList "[".toList = true ∧
    MatchIdentity asciiTables "[".toList "localhost".toList "[".toList = true :=
  ⟨rfl, by decide, by decide⟩

/-- C9, the failing input: the wildcard does not match a run of characters
that contains `/`. The host `10.0.0.0/16` starts with `10.0.` and is not
matched by `app@10.0.%`, the user `a/b` is not matched by `a*`; the pattern
`*` on its own does match `a/b`. -/
theorem wildcard_stops_at_slash :
    MatchIdentity asciiTables "app".toList "10.0.0.0/16".toList "app@10.0.%".toList = false ∧
    MatchIdentity asciiTables "a/b".toList "localhost".toList "a*".toList = false ∧
    MatchIdentity asciiTables "a/b".toList "localhost".toList "a%".toList = false ∧
    matchGlob "app".toList "app".toList = true ∧
    matchGlob "a/b".toList "*".toList = true := by
  decide

theorem MatchIdentity_pattern_lower (U : UnicodeTables) (user host p q : GoString)
    (hp : strings.ToLower U p = strings.ToLower U q) :
    MatchIdentity U user host p = MatchIdentity U user host q := by
  simp only [MatchIdentity, hp]

theorem anyMatch_patterns_lower (U : UnicodeTables) (u h : GoString) (ps qs : List GoString)
    (hpq : ps.map (strings.ToLower U) = qs.map (strings.ToLower U)) :
    anyMatch U u h ps = anyMatch U u h qs := by
  induction ps generalizing qs with
  | nil =>
    cases qs with
    | nil => rfl
    | cons q qs => simp at hpq
  | cons p ps ih =>
    cases qs with
    | nil => simp at hpq
    | cons q qs =>
      simp only [List.map_cons, List.cons.injEq] at hpq
      simp only [anyMatch, MatchIdentity_pattern_lower U u h p q hpq.1, ih qs hpq.2]

/-- C10, as the code has it: `ShouldInclude` gives the same result when the
user, the host or any pattern is replaced by a string with the same lower-case
form, and `MatchIdentity` gives the same result when its pattern is so
replaced, and also when its user and host are, provided it is called on their
lower-case forms (as `ShouldInclude` calls it). -/
theorem matching_ignores_case (U : UnicodeTables) (user user2 host host2 p p2 : GoString)
    (includes includes2 excludes excludes2 : List GoString)
    (hu : strings.ToLower U user = strings.ToLower U user2)
    (hh : strings.ToLower U host = strings.ToLower U host2)
    (hp : strings.ToLower U p = strings.ToLower U p2)
    (hi : includes.map (strings.ToLower U) = includes2.map (strings.ToLower U))
    (he : excludes.map (strings.ToLower U) = excludes2.map (strings.ToLower U)) :
    ShouldInclude U user host includes excludes = ShouldInclude U user2 host2 includes2 excludes2 ∧
    MatchIdentity U user host p = MatchIdentity U user host p2 ∧
    MatchIdentity U (strings.ToLower U user) (strings.ToLower U host) p =
      MatchIdentity U (strings.ToLower U user2) (strings.ToLower U host2) p2 := by
  refine ⟨?_, MatchIdentity_pattern_lower U user host p p2 hp, ?_⟩
  · have hl : includes.length = includes2.length := by
      simpa using congrArg List.length hi
    simp only [ShouldInclude, hu, hh, hl,
      anyMatch_patterns_lower U _ _ includes includes2 hi,
      anyMatch_patterns_lower U _ _ excludes excludes2 he]
  · rw [hu, hh]
    exact MatchIdentity_pattern_lower U _ _ p p2 hp

theorem matching_ignores_case_witness :
    strings.ToLower asciiTables "Root".toList = strings.ToLower asciiTables "root".toList ∧
    strings.ToLower asciiTables "LocalHost".toList =
      strings.ToLower asciiTables "localhost".toList ∧
    ShouldInclude asciiTables "Root".toList "LocalHost".toList ["ROOT@Local%".toList] [] =
      ShouldInclude asciiTables "root".toList "localhost".toList ["root@local%".toList] [] ∧
    MatchIdentity asciiTables "Root".toList "LocalHost".toList "ROOT@Local%".toList =
      MatchIdentity asciiTables "Root".toList "LocalHost".toList "root@local%".toList :=
  ⟨by decide, by decide,
    (matching_ignores_case asciiTables "Root".toList "root".toList "LocalHost".toList
      "localhost".toList "ROOT@Local%".toList "root@local%".toList ["ROOT@Local%".toList]
      ["root@local%".toList] [] [] (by decide) (by decide) (by decide) (by decide)
      (by decide)).1,
    (matching_ignores_case asciiTables "Root".toList "root".toList "LocalHost".toList
      "localhost".toList "ROOT@Local%".toList "root@local%".toList ["ROOT@Local%".toList]
      ["root@local%".toList] [] [] (by decide) (by decide) (by decide) (by decide)
      (by decide)).2.1⟩

/-- C10, the claim as stated fails: `MatchIdentity` compares the user and the
host as they are given, so `Root@LocalHost` is not matched by the pattern
`root@localhost`, which matches `root@localhost`. -/
theorem MatchIdentity_case_sensitive_identity :
    MatchIdentity asciiTables "Root".toList "LocalHost".toList "root@localhost".toList = false ∧
    MatchIdentity asciiTables "root".toList "localhost".toList "root@localhost".toList = true := by
  decide

/-! ## Where the wildcard does match -/

theorem plainText_cons {c : Char} {cs : GoString} (h : plainText (c :: cs)) :
    (c ≠ '*' ∧ c ≠ '%' ∧ c ≠ '?' ∧ c ≠ '[' ∧ c ≠ Char.ofNat 92) ∧ plainText cs :=
  ⟨h c (by simp), fun d hd => h d (by simp [hd])⟩

theorem replaceFrom_single_absent (a : Char) (new p : GoString) (h : a ∉ p) :
    strings.replaceFrom [a] new 0 p = p := by
  induction p with
  | nil => exact replaceFrom_single_nil a new
  | cons c cs ih =>
    have hc : ¬ c = a := fun e => h (by simp [e])
    have hcs : a ∉ cs := fun hm => h (by simp [hm])
    rw [replaceFrom_single_cons, if_neg hc, ih hcs]
    rfl

theorem Contains_stars_plain (p : GoString) (hp : '*' ∉ p) :
    strings.Contains (p ++ ['*']) "**".toList = false := by
  induction p with
  | nil => decide
  | cons c cs ih =>
    have hc : ¬ '*' = c := fun e => hp (by rw [← e]; exact List.mem_cons_self _ _)
    have hcs : '*' ∉ cs := fun hm => hp (List.mem_cons_of_mem _ hm)
    have hpre : List.isPrefixOf ['*', '*'] (c :: (cs ++ ['*'])) = false := by
      simp [List.isPrefixOf, hc]
    have := ih hcs
    simp only [strings.Contains, String.toList] at this ⊢
    rw [List.cons_append, strings.Index]
    simp only [hpre, Bool.false_eq_true, if_false, Option.isSome_map']
    exact this

theorem normalizeLoop_fixed (fuel : Nat) (q : GoString)
    (h : strings.Contains q "**".toList = false) : normalizeLoop fuel q = q := by
  cases fuel with
  | zero => rfl
  | succ k => simp only [normalizeLoop, h, Bool.false_eq_true, if_false]

theorem normalizePattern_plain (p : GoString) (w : Char) (hp : plainText p)
    (hw : w = '*' ∨ w = '%') : normalizePattern (p ++ [w]) = p ++ ['*'] := by
  have hpc : '%' ∉ p := fun hm => (hp '%' hm).2.1 rfl
  have hst : '*' ∉ p := fun hm => (hp '*' hm).1 rfl
  have e1 : strings.ReplaceAll (p ++ [w]) "%".toList "*".toList = p ++ ['*'] := by
    show strings.replaceFrom ['%'] ['*'] 0 (p ++ [w]) = p ++ ['*']
    rw [replaceFrom_single_append, replaceFrom_single_absent '%' _ p hpc, replaceFrom_single_cons,
      replaceFrom_single_nil]
    rcases hw with hw | hw <;> subst hw <;> simp
  unfold normalizePattern
  simp only [e1]
  exact normalizeLoop_fixed _ _ (Contains_stars_plain p hst)

open path in
theorem scanEnd_plain (p tail : GoString) (hp : plainText p) :
    scanEnd false (p ++ '*' :: tail) = p.length := by
  induction p with
  | nil =>
    rw [List.nil_append, scanEnd.eq_def]
    simp only [List.length_nil]
    rw [if_neg (by decide), if_neg (by decide), if_neg (by decide)]
    simp
  | cons c cs ih =>
    obtain ⟨⟨h1, _, _, h4, h5⟩, hcs⟩ := plainText_cons hp
    rw [List.cons_append, scanEnd.eq_def]
    simp only [h5, h4, h1, if_false]
    by_cases hb : c = ']'
    · simp only [hb, if_true, ih hcs, List.length_cons]
      omega
    · simp only [hb, if_false, ih hcs, List.length_cons]
      omega

open path in
theorem matchChunkLoop_plain (p rest : GoString) (hp : plainText p) :
    matchChunkLoop p.length p (p ++ rest) false = .ok (some rest) := by
  induction p with
  | nil => simp [matchChunkLoop]
  | cons c cs ih =>
    obtain ⟨⟨_, _, h3, h4, h5⟩, hcs⟩ := plainText_cons hp
    rw [List.length_cons, matchChunkLoop.eq_def]
    simp only [List.cons_append, List.isEmpty_cons, Bool.or_self, Bool.false_eq_true, if_false,
      h4, h3, h5, List.tail_cons, List.head?_cons, ne_eq, not_true_eq_false, decide_False]
    exact ih hcs

/-- A literal prefix followed by the wildcard (written `*` or `%`) matches
every value that starts with the prefix and has no `/` after it. -/
theorem matchGlob_prefix_wildcard (p rest : GoString) (w : Char) (hp : plainText p)
    (hw : w = '*' ∨ w = '%') (hrest : '/' ∉ rest) :
    matchGlob (p ++ rest) (p ++ [w]) = true := by
  unfold matchGlob
  simp only [normalizePattern_plain p w hp hw]
  cases p with
  | nil => simp [String.toList]
  | cons c cs =>
    obtain ⟨⟨h1, _, _, _, _⟩, hcs⟩ := plainText_cons hp
    have hall : rest.all (fun c => decide (c ≠ '/')) = true := by
      simp only [List.all_eq_true, decide_eq_true_eq]
      intro x hx e
      exact hrest (e ▸ hx)
    have hne : (c :: cs ++ ['*'] : GoString) ≠ "*".toList := by
      simp [String.toList, h1]
    have hsc : path.scanChunk (c :: cs ++ ['*']) = (false, c :: cs, ['*']) := by
      have hse := scanEnd_plain (c :: cs) [] hp
      simp only [path.scanChunk, List.cons_append, List.head?_cons, Option.some.injEq, h1,
        List.dropWhile_cons, decide_False, Bool.false_eq_true, if_false]
      simp only [List.cons_append] at hse
      rw [hse]
      simp
    have hm : path.Match (c :: cs ++ ['*']) (c :: cs ++ rest) = .ok true := by
      have hch : path.matchChunk (c :: cs) (c :: cs ++ rest) = .ok (some rest) :=
        matchChunkLoop_plain (c :: cs) rest hp
      have hstar : path.scanChunk ['*'] = (true, [], []) := by
        simp [path.scanChunk, path.scanEnd]
      unfold path.Match
      rw [show (c :: cs ++ ['*']).length = (cs.length + 1) + 1 by simp]
      rw [path.MatchLoop]
      simp only [hsc, hch]
      have hall2 : ∀ x ∈ rest, ¬ x = '/' := fun x hx e => hrest (e ▸ hx)
      simp only [path.MatchLoop, hstar, List.isEmpty_cons, Bool.false_eq_true, if_false, true_or,
        or_true, ne_eq, not_false_eq_true, List.cons_ne_nil, and_self, if_true, hall,
        List.length_cons]
      rfl
    rw [if_neg (by simp), if_neg hne, hm]

/-! ## One target (`Runner.migrateTarget`) -/

theorem applyUserGrants_identity {σ : Type} (T : TargetDB σ) (out : UserResult)
    (identity : GoString) (c : Conn σ) (grants : List GoString) :
    (applyUserGrants T out identity c grants).1.User = out.User ∧
    (applyUserGrants T out identity c grants).1.Host = out.Host := by
  unfold applyUserGrants
  split <;> simp

theorem applyUserCreate_identity {σ : Type} (T : TargetDB σ) (out : UserResult)
    (identity : GoString) (exists1 : Bool) (c : Conn σ) (user : UserRecord) :
    (applyUserCreate T out identity exists1 c user).1.User = out.User ∧
    (applyUserCreate T out identity exists1 c user).1.Host = out.Host := by
  unfold applyUserCreate
  split
  · split
    · simp
    · exact applyUserGrants_identity T out identity _ user.Grants
  · exact applyUserGrants_identity T out identity _ user.Grants

theorem applyUser_identity {σ : Type} (T : TargetDB σ) (r : Runner) (c : Conn σ)
    (user : UserRecord) :
    (applyUser T r c user).1.User = user.User ∧ (applyUser T r c user).1.Host = user.Host := by
  unfold applyUser
  simp only
  split
  · simp
  · split
    · split <;> simp
    · split
      · split
        · simp
        · exact applyUserCreate_identity T ⟨user.User, user.Host, [], []⟩ _ false _ user
      · exact applyUserCreate_identity T ⟨user.User, user.Host, [], []⟩ _ _ _ user

theorem countsApplied_not_skipped (u : UserResult) (ha : countsApplied u = true) :
    countsSkipped u = false := by
  unfold countsApplied at ha
  unfold countsSkipped
  apply decide_eq_false
  rcases of_decide_eq_true ha with h | h <;> rw [h] <;> decide

theorem countP_partition (us : List UserResult) :
    us.countP countsApplied + us.countP countsSkipped + us.countP countsFailed = us.length := by
  induction us with
  | nil => rfl
  | cons u us ih =>
    simp only [List.countP_cons, List.length_cons, countsFailed]
    by_cases ha : countsApplied u = true
    · simp only [ha, countsApplied_not_skipped u ha, if_true, Bool.false_eq_true, if_false,
        Bool.not_true, Bool.false_and]
      omega
    · by_cases hs : countsSkipped u = true <;> simp [ha, hs] <;> omega

/-- What the loop over the users keeps true: it changes only `Users` and the
three counts; it appends one result per user, in order, with the user's name
and host; and counts that agree with `Users` before agree with it after. -/
theorem userLoop_spec {σ : Type} (T : TargetDB σ) (r : Runner) (users : List UserRecord)
    (db : Conn σ) (res : TargetReport)
    (hA : res.Applied = res.Users.countP countsApplied)
    (hS : res.Skipped = res.Users.countP countsSkipped)
    (hF : res.Failed = res.Users.countP countsFailed) :
    (userLoop T r db users res).Users.map (fun u => (u.User, u.Host)) =
      res.Users.map (fun u => (u.User, u.Host)) ++ users.map (fun u => (u.User, u.Host)) ∧
    (userLoop T r db users res).Applied = (userLoop T r db users res).Users.countP countsApplied ∧
    (userLoop T r db users res).Skipped = (userLoop T r db users res).Users.countP countsSkipped ∧
    (userLoop T r db users res).Failed = (userLoop T r db users res).Users.countP countsFailed ∧
    (userLoop T r db users res).Error = res.Error := by
  induction users generalizing db res with
  | nil => simp [userLoop, hA, hS, hF]
  | cons user users ih =>
    have hid := applyUser_identity T r db user
    unfold userLoop
    simp only
    by_cases h1 : (applyUser T r db user).1.Status = "applied".toList ∨
        (applyUser T r db user).1.Status = "planned".toList
    · have ca : countsApplied (applyUser T r db user).1 = true := by
        unfold countsApplied
        exact decide_eq_true h1
      have cf : countsFailed (applyUser T r db user).1 = false := by simp [countsFailed, ca]
      have cs : countsSkipped (applyUser T r db user).1 = false :=
        countsApplied_not_skipped _ ca
      rw [if_pos h1]
      have := ih (applyUser T r db user).2
        { res with Users := res.Users ++ [(applyUser T r db user).1], Applied := res.Applied + 1 }
        (by simp [List.countP_append, ca, hA])
        (by simp [List.countP_append, cs, hS])
        (by simp [List.countP_append, cf, hF])
      simpa [hid.1, hid.2] using this
    · have ca : countsApplied (applyUser T r db user).1 = false := by
        unfold countsApplied
        exact decide_eq_false h1
      rw [if_neg h1]
      by_cases h2 : (applyUser T r db user).1.Status = "skipped".toList
      · have cs : countsSkipped (applyUser T r db user).1 = true := by
          unfold countsSkipped
          exact decide_eq_true h2
        have cf : countsFailed (applyUser T r db user).1 = false := by simp [countsFailed, cs]
        rw [if_pos h2]
        have := ih (applyUser T r db user).2
          { res with Users := res.Users ++ [(applyUser T r db user).1],
                     Skipped := res.Skipped + 1 }
          (by simp [List.countP_append, ca, hA])
          (by simp [List.countP_append, cs, hS])
          (by simp [List.countP_append, cf, hF])
        simpa [hid.1, hid.2] using this
      · have cs : countsSkipped (applyUser T r db user).1 = false := by
          unfold countsSkipped
          exact decide_eq_false h2
        have cf : countsFailed (applyUser T r db user).1 = true := by simp [countsFailed, ca, cs]
        rw [if_neg h2]
        have := ih (applyUser T r db user).2
          { res with Users := res.Users ++ [(applyUser T r db user).1],
                     Failed := res.Failed + 1 }
          (by simp [List.countP_append, ca, hA])
          (by simp [List.countP_append, cs, hS])
          (by simp [List.countP_append, cf, hF])
        split <;> simpa [hid.1, hid.2] using this

/-- On a connected target the failures are at most the entries of `Users`. -/
theorem migrateTarget_failed_le_users {Cfg σ : Type} (D : DSNDriver Cfg) (T : TargetDB σ)
    (openDB : GoString → Except GoString (Conn σ)) (r : Runner) (start finish : Int)
    (users : List UserRecord) (target : Target) (db : Conn σ)
    (hdb : openDB target.DSN = .ok db) :
    (migrateTarget D T openDB r start finish users target).Failed ≤
      (migrateTarget D T openDB r start finish users target).Users.length := by
  have h := userLoop_spec T r users db
    { Target := if target.Name = [] then MaskDSN D target.DSN else target.Name,
      Applied := 0, Skipped := 0, Failed := 0, Users := [], Error := [], DurationMS := 0,
      DryRun := r.DryRun, StartedAt := start, FinishedAt := 0 } rfl rfl rfl
  simp only [migrateTarget, hdb]
  rw [h.2.2.2.1]
  exact List.countP_le_length _

/-- C11. The report of `migrateTarget` accounts for every user exactly once.
When the connection to the target is established, `Users` has one entry per
inventory record, the i-th with the user and host of the i-th record, the
counts `Applied` (statuses `applied` and `planned`), `Skipped` (status
`skipped`) and `Failed` (status `error` and any other) are the numbers of such
entries, and they add up to the number of records. When the connection fails,
`Error` is set, `Users` is empty, `Applied` and `Skipped` are zero and
`Failed` is the number of records. -/
theorem migrateTarget_accounts {Cfg σ : Type} (D : DSNDriver Cfg) (T : TargetDB σ)
    (openDB : GoString → Except GoString (Conn σ)) (r : Runner) (start finish : Int)
    (users : List UserRecord) (target : Target) :
    (∀ db, openDB target.DSN = .ok db →
      (migrateTarget D T openDB r start finish users target).Users.length = users.length ∧
      (migrateTarget D T openDB r start finish users target).Users.map
          (fun u => (u.User, u.Host)) = users.map (fun u => (u.User, u.Host)) ∧
      (migrateTarget D T openDB r start finish users target).Applied +
        (migrateTarget D T openDB r start finish users target).Skipped +
        (migrateTarget D T openDB r start finish users target).Failed = users.length ∧
      (migrateTarget D T openDB r start finish users target).Applied =
        (migrateTarget D T openDB r start finish users target).Users.countP countsApplied ∧
      (migrateTarget D T openDB r start finish users target).Skipped =
        (migrateTarget D T openDB r start finish users target).Users.countP countsSkipped ∧
      (migrateTarget D T openDB r start finish users target).Failed =
        (migrateTarget D T openDB r start finish users target).Users.countP countsFailed) ∧
    (∀ err, openDB target.DSN = .error err →
      (migrateTarget D T openDB r start finish users target).Error ≠ [] ∧
      (migrateTarget D T openDB r start finish users target).Users = [] ∧
      (migrateTarget D T openDB r start finish users target).Applied = 0 ∧
      (migrateTarget D T openDB r start finish users target).Skipped = 0 ∧
      (migrateTarget D T openDB r start finish users target).Failed = users.length) := by
  constructor
  · intro db hdb
    have h := userLoop_spec T r users db
      { Target := if target.Name = [] then MaskDSN D target.DSN else target.Name,
        Applied := 0, Skipped := 0, Failed := 0, Users := [], Error := [], DurationMS := 0,
        DryRun := r.DryRun, StartedAt := start, FinishedAt := 0 } rfl rfl rfl
    obtain ⟨hU, hA, hS, hF, _⟩ := h
    simp only [List.map_nil, List.nil_append] at hU
    have hlen := congrArg List.length hU
    simp only [List.length_map] at hlen
    have hpart := countP_partition (userLoop T r db users
      { Target := if target.Name = [] then MaskDSN D target.DSN else target.Name,
        Applied := 0, Skipped := 0, Failed := 0, Users := [], Error := [], DurationMS := 0,
        DryRun := r.DryRun, StartedAt := start, FinishedAt := 0 }).Users
    simp only [migrateTarget, hdb]
    refine ⟨hlen, hU, ?_, hA, hS, hF⟩
    rw [hA, hS, hF, hpart, hlen]
  · intro err herr
    simp [migrateTarget, herr, String.toList]

theorem migrateTarget_accounts_witness :
    (migrateTarget noSlashDriver (scriptedDB (.ok 0) (fun _ => false)) (fun _ => .ok ⟨[], []⟩)
      (policyRunner false false false) 0 5 [sampleUser, sampleUser]
      ⟨"t1".toList, "root:pw@db1".toList⟩).Users.length = 2 ∧
    (migrateTarget noSlashDriver (scriptedDB (.ok 0) (fun _ => false))
      (fun _ => .error "connection refused".toList)
      (policyRunner false false false) 0 5 [sampleUser, sampleUser]
      ⟨"t1".toList, "root:pw@db1".toList⟩).Failed = 2 :=
  ⟨((migrateTarget_accounts noSlashDriver (scriptedDB (.ok 0) (fun _ => false))
      (fun _ => .ok ⟨[], []⟩) (policyRunner false false false) 0 5 [sampleUser, sampleUser]
      ⟨"t1".toList, "root:pw@db1".toList⟩).1 ⟨[], []⟩ rfl).1,
   ((migrateTarget_accounts noSlashDriver (scriptedDB (.ok 0) (fun _ => false))
      (fun _ => .error "connection refused".toList) (policyRunner false false false) 0 5
      [sampleUser, sampleUser] ⟨"t1".toList, "root:pw@db1".toList⟩).2
      "connection refused".toList rfl).2.2.2.2⟩

/-! ## The whole run (`Runner.Run`) -/

theorem mergeResults_totals (results : List TargetReport) (report : Report) :
    (mergeResults report results).TotalFailed =
      report.TotalFailed + (results.map (fun res => res.Failed)).sum ∧
    (mergeResults report results).TotalUsers =
      report.TotalUsers + (results.map (fun res => res.Users.length)).sum ∧
    (mergeResults report results).Targets = report.Targets ++ results := by
  induction results generalizing report with
  | nil => simp [mergeResults]
  | cons res results ih =>
    have := ih { report with Targets := report.Targets ++ [res],
                             TotalFailed := report.TotalFailed + res.Failed,
                             TotalUsers := report.TotalUsers + res.Users.length }
    simp only [mergeResults, List.map_cons, List.sum_cons]
    simp only at this
    refine ⟨by rw [this.1]; omega, by rw [this.2.1]; omega, by rw [this.2.2]; simp⟩

/-- When every target of the run is connected, the merged totals satisfy
`TotalFailed <= TotalUsers`. -/
theorem mergeResults_connected {Cfg σ : Type} (D : DSNDriver Cfg) (T : TargetDB σ)
    (openDB : GoString → Except GoString (Conn σ)) (r : Runner) (clock : Target → Int × Int)
    (users : List UserRecord) (targets : List Target) (report : Report)
    (hconn : ∀ t ∈ targets, ∃ db, openDB t.DSN = .ok db)
    (h0 : report.TotalFailed ≤ report.TotalUsers) :
    (mergeResults report (targets.map
      (fun t => migrateTarget D T openDB r (clock t).1 (clock t).2 users t))).TotalFailed ≤
    (mergeResults report (targets.map
      (fun t => migrateTarget D T openDB r (clock t).1 (clock t).2 users t))).TotalUsers := by
  induction targets generalizing report with
  | nil => simpa [mergeResults] using h0
  | cons t ts ih =>
    obtain ⟨db, hdb⟩ := hconn t (by simp)
    have hacc := (migrateTarget_failed_le_users D T openDB r (clock t).1 (clock t).2 users t
      db hdb)
    simp only [List.map_cons, mergeResults]
    apply ih
    · intro t2 ht2
      exact hconn t2 (by simp [ht2])
    · simp only
      omega

/-- C13, the failing input: one target whose connection fails and an
inventory of one user. `Run` reports `TotalFailed = 1` and `TotalUsers = 0`:
the failed target adds the number of users to the failures and, its `Users`
being empty, nothing to the users. -/
theorem Run_failed_exceeds_users :
    (Run asciiTables noSlashDriver (scriptedDB (.ok 0) (fun _ => false))
      (fun _ => .ok sampleSource) (fun _ => .error "connection refused".toList)
      (fun _ => (0, 5)) 0 9
      { policyRunner false false false with
        SourceDSN := "root:pw@source".toList,
        Targets := [⟨"replica".toList, "root:pw@replica".toList⟩] }).toOption.map
      (fun report => (report.TotalFailed, report.TotalUsers,
        report.Targets.map (fun t => (t.Failed, t.Users.length)))) = some (1, 0, [(1, 0)]) := by
  decide

/-- The totals of a run do not depend on the order in which the target
reports are merged. -/
theorem mergeResults_order (report : Report) (results results2 : List TargetReport)
    (hperm : results.Perm results2) :
    (mergeResults report results).TotalFailed = (mergeResults report results2).TotalFailed ∧
    (mergeResults report results).TotalUsers = (mergeResults report results2).TotalUsers := by
  rw [(mergeResults_totals results report).1, (mergeResults_totals results2 report).1,
    (mergeResults_totals results report).2.1, (mergeResults_totals results2 report).2.1]
  exact ⟨by rw [(hperm.map _).sum_eq], by rw [(hperm.map _).sum_eq]⟩

/-- A run whose targets are all connected reports `TotalFailed <= TotalUsers`. -/
theorem Run_totals_connected {Cfg σ : Type} (U : UnicodeTables) (D : DSNDriver Cfg)
    (T : TargetDB σ) (openSource : GoString → Except GoString SourceDB)
    (openDB : GoString → Except GoString (Conn σ)) (clock : Target → Int × Int)
    (start finish : Int) (r : Runner) (report : Report)
    (hconn : ∀ t ∈ r.Targets, ∃ db, openDB t.DSN = .ok db)
    (hrun : Run U D T openSource openDB clock start finish r = .ok report) :
    report.TotalFailed ≤ report.TotalUsers := by
  unfold Run at hrun
  simp only at hrun
  split at hrun
  · simp at hrun
  · split at hrun
    · simp at hrun
    · rename_i sourceUsers _
      simp only [Except.ok.injEq] at hrun
      rw [← hrun]
      simp only
      refine mergeResults_connected D T openDB _ clock sourceUsers _ _ ?_ (Nat.le_refl _)
      intro t ht
      apply hconn
      split at ht <;> exact ht

/-! ## Patterns without a host part (`MatchIdentity`) -/

theorem Index_single_absent (c : Char) (s : GoString) (hc : c ∉ s) :
    strings.Index s [c] = none := by
  induction s with
  | nil => simp [strings.Index]
  | cons x xs ih =>
    have hx : ¬ c = x := fun e => hc (by rw [← e]; exact List.mem_cons_self _ _)
    have hxs : c ∉ xs := fun h => hc (List.mem_cons_of_mem _ h)
    simp [strings.Index, List.isPrefixOf, hx, ih hxs]

/-- A pattern in which `@` occurs at most as the last rune has an empty host
part. -/
theorem splitPattern_host_empty (t : GoString) (ht : '@' ∉ t.dropLast) :
    (splitPattern t).2 = [] := by
  by_cases hmem : '@' ∈ t
  · have hne : t ≠ [] := fun e => by simp [e] at hmem
    have hlast : t.getLast hne = '@' := by
      have hsplit := List.dropLast_append_getLast hne
      rw [← hsplit] at hmem
      rcases List.mem_append.mp hmem with h | h
      · exact absurd h ht
      · exact (List.mem_singleton.mp h).symm
    have hsplit : t = t.dropLast ++ '@' :: [] := by
      have := List.dropLast_append_getLast hne
      rw [hlast] at this
      exact this.symm
    have hidx : strings.Index t "@".toList = some t.dropLast.length := by
      conv_lhs => rw [hsplit]
      exact Index_single_append '@' t.dropLast [] ht
    simp only [splitPattern, strings.Contains, hidx, Option.isSome_some, if_true,
      strings.SplitN2]
    have hlen : t.dropLast.length + "@".toList.length = t.length := by
      conv_rhs => rw [hsplit]
      simp [String.toList]
    rw [hlen, List.drop_length]
    rfl
  · have hidx : strings.Index t "@".toList = none := Index_single_absent '@' t hmem
    simp only [splitPattern, strings.Contains, hidx, Option.isSome_none, Bool.false_eq_true,
      if_false]

theorem dropLast_of_suffix (pre s : GoString) (h : '@' ∉ (pre ++ s).dropLast) :
    '@' ∉ s.dropLast := by
  by_cases hs : s = []
  · simp [hs]
  · rw [List.dropLast_append_of_ne_nil _ hs] at h
    exact fun hm => h (List.mem_append_right _ hm)

theorem dropLast_of_initial (s post : GoString) (h : '@' ∉ (s ++ post).dropLast) :
    '@' ∉ s.dropLast := by
  by_cases hp : post = []
  · simpa [hp] using h
  · rw [List.dropLast_append_of_ne_nil _ hp] at h
    exact fun hm => h (List.mem_append_left _ (List.mem_of_mem_dropLast hm))

theorem TrimSpace_dropLast (U : UnicodeTables) (s : GoString) (h : '@' ∉ s.dropLast) :
    '@' ∉ (strings.TrimSpace U s).dropLast := by
  have h1 : '@' ∉ (s.dropWhile U.isSpace).dropLast := by
    apply dropLast_of_suffix (s.takeWhile U.isSpace)
    rw [List.takeWhile_append_dropWhile]
    exact h
  have hdecomp : s.dropWhile U.isSpace =
      ((s.dropWhile U.isSpace).reverse.dropWhile U.isSpace).reverse ++
        ((s.dropWhile U.isSpace).reverse.takeWhile U.isSpace).reverse := by
    rw [← List.reverse_append, List.takeWhile_append_dropWhile, List.reverse_reverse]
  unfold strings.TrimSpace
  apply dropLast_of_initial _ ((s.dropWhile U.isSpace).reverse.takeWhile U.isSpace).reverse
  rw [← hdecomp]
  exact h1

/-- The result of `MatchIdentity` does not depend on the host when the
trimmed, lower-cased pattern has an empty host part. -/
theorem MatchIdentity_host_free (U : UnicodeTables) (u h1 h2 p : GoString)
    (hhost : (splitPattern (strings.TrimSpace U (strings.ToLower U p))).2 = []) :
    MatchIdentity U u h1 p = MatchIdentity U u h2 p := by
  simp only [MatchIdentity, hhost, if_true]

/-- C12. For the Unicode tables, in which `@` is the lower case of no other
rune: when the pattern contains no `@`, or is a user part followed by a single
`@` as its last rune (an empty host part), `MatchIdentity` gives the same
result for every two hosts; the result depends on the user only. -/
theorem MatchIdentity_host_independent (U : UnicodeTables) (u h1 h2 p : GoString)
    (hU : ∀ c, U.toLower c = '@' → c = '@')
    (hp : '@' ∉ p ∨ ∃ up, p = up ++ "@".toList ∧ '@' ∉ up) :
    MatchIdentity U u h1 p = MatchIdentity U u h2 p := by
  apply MatchIdentity_host_free
  apply splitPattern_host_empty
  apply TrimSpace_dropLast
  have hlow : ∀ s : GoString, '@' ∉ s → '@' ∉ strings.ToLower U s := by
    intro s hs hm
    simp only [strings.ToLower, List.mem_map] at hm
    obtain ⟨c, hc, hcl⟩ := hm
    exact hs (hU c hcl ▸ hc)
  rcases hp with hp | ⟨up, rfl, hup⟩
  · exact fun hm => hlow p hp (List.mem_of_mem_dropLast hm)
  · have : strings.ToLower U (up ++ "@".toList) =
        strings.ToLower U up ++ [U.toLower '@'] := by
      simp [strings.ToLower, String.toList]
    rw [this, List.dropLast_concat]
    exact hlow up hup

/-- In the ASCII tables `@` is the lower case of no other rune. -/
theorem asciiTables_at (c : Char) (h : asciiTables.toLower c = '@') : c = '@' := by
  simp only [asciiTables, Char.toLower] at h
  split at h
  · rename_i hr
    exfalso
    generalize hn : c.toNat = n at h hr
    obtain ⟨h65, h90⟩ := hr
    interval_cases n <;> exact absurd h (by decide)
  · exact h

theorem MatchIdentity_host_independent_witness :
    MatchIdentity asciiTables "root".toList "anywhere".toList "Root".toList =
      MatchIdentity asciiTables "root".toList "10.0.0.7".toList "Root".toList ∧
    MatchIdentity asciiTables "root".toList "anywhere".toList "root@".toList =
      MatchIdentity asciiTables "root".toList "10.0.0.7".toList "root@".toList :=
  ⟨MatchIdentity_host_independent asciiTables _ _ _ _ asciiTables_at (Or.inl (by decide)),
   MatchIdentity_host_independent asciiTables _ _ _ _ asciiTables_at
     (Or.inr ⟨"root".toList, rfl, by decide⟩)⟩

end Migrate
